import Mathlib

/-!
Verification of the ChatLab agent-orchestration core against its sources.

The definitions below are a shallow embedding of the TypeScript sources:
  * `src/electron/main/ai/agent.ts` (fallback tag parsers, `Agent.execute`,
    `Agent.executeStream`, `Agent.handleToolCalls`),
  * `src/electron/main/ai/llm/deepseek.ts` (`DeepSeekService.chatStream`),
  * `src/electron/main/ipc/ai.ts` (the `agent:abort` handler).

JavaScript strings are modelled as Lean strings with index arithmetic done on
their character lists; JSON values are modelled by the inductive `Json` below
(numbers restricted to integer literals, which is all the orchestrator's own
data ever uses); JS `Map` objects are modelled as insertion-ordered
association lists.  Effects are made explicit: the LLM service and the tool
executor become oracles supplied as parameters, `AbortSignal` becomes a
monotone flag consulted at numbered check points, and thrown exceptions
become `Option`/flag results.
-/

namespace ChatLab

set_option maxRecDepth 200000

/-! ## JavaScript string primitives -/

/-- JavaScript whitespace as used by `String.prototype.trim` and the regex
class `\s`, restricted to the code points that can occur in this system's
data. -/
def isJsWs (c : Char) : Bool :=
  c = ' ' || c = '\t' || c = '\n' || c = '\r' ||
  c = Char.ofNat 11 || c = Char.ofNat 12 || c = Char.ofNat 160 || c = Char.ofNat 65279

/-- Trim JS whitespace from both ends of a character list. -/
def trimChars (s : List Char) : List Char :=
  ((s.dropWhile isJsWs).reverse.dropWhile isJsWs).reverse

/-- Model of `String.prototype.trim`. -/
def strTrim (s : String) : String := (trimChars s.toList).asString

/-- Character count of a string (JS `.length` for the BMP text handled here). -/
def strLen (s : String) : Nat := s.toList.length

/-- JS `s.slice(0, n)` in characters. -/
def strTake (s : String) (n : Nat) : String := (s.toList.take n).asString

/-- JS `s.slice(n)` in characters. -/
def strDrop (s : String) (n : Nat) : String := (s.toList.drop n).asString

/-- JS `s.slice(a, b)` in characters (for `a ≤ b`). -/
def strSlice (s : String) (a b : Nat) : String := ((s.toList.drop a).take (b - a)).asString

/-- Case-insensitive character comparison (regex flag `i`). -/
def ciEq (a b : Char) : Bool := a.toLower == b.toLower

/-- Does `s` start with `pat`, comparing characters with `eq`? -/
def startsWithBy (eq : Char → Char → Bool) : List Char → List Char → Bool
  | [], _ => true
  | _ :: _, [] => false
  | p :: ps, c :: cs => eq p c && startsWithBy eq ps cs

/-- Index of the first occurrence of `pat` in `s` under `eq`, if any. -/
def findIdxBy (eq : Char → Char → Bool) (pat : List Char) : List Char → Option Nat
  | [] => if startsWithBy eq pat [] then some 0 else none
  | c :: rest =>
    if startsWithBy eq pat (c :: rest) then some 0
    else (findIdxBy eq pat rest).map (· + 1)

/-- First case-insensitive occurrence of `pat` in `s`. -/
def ciFind (pat s : List Char) : Option Nat := findIdxBy ciEq pat s

/-- First case-sensitive occurrence of `pat` in `s`. -/
def csFind (pat s : List Char) : Option Nat := findIdxBy (· == ·) pat s

/-- Case-insensitive substring test (JS `/pat/i.test(s)` for a literal `pat`). -/
def containsCI (s pat : String) : Bool := (ciFind pat.toList s.toList).isSome

/-- JS `s.indexOf(pat)` (case-sensitive), as an `Option` instead of `-1`. -/
def csIndexOf (s pat : String) : Option Nat := csFind pat.toList s.toList

/-- JS `s.replace(sub, '')` for a literal `sub`: remove the first exact
occurrence, if any. -/
def removeFirstOcc (sub s : List Char) : List Char :=
  match csFind sub s with
  | none => s
  | some i => s.take i ++ s.drop (i + sub.length)

/-- JS `s.split(sep)` for a one-character separator. -/
def splitCharsOn (sep : Char) : List Char → List (List Char)
  | [] => [[]]
  | c :: rest =>
    let r := splitCharsOn sep rest
    if c = sep then [] :: r
    else
      match r with
      | [] => [[c]]
      | g :: gs => (c :: g) :: gs

/-! ## Scanning paired tags

The regexes `/<think>([\s\S]*?)<\/think>/gi` and
`/<tool_call>\s*([\s\S]*?)\s*<\/tool_call>/gi` both find, repeatedly and
left to right, a case-insensitive open tag followed by the earliest
case-insensitive close tag (the inner group is lazy); scanning resumes after
the close tag.  `nextTagSpan` performs one such step. -/

/-- Find the next `openTag … closeTag` span of `s`: returns the start index
of the span, the full matched text, the inner text and the rest of `s` after
the close tag. -/
def nextTagSpan (openTag closeTag s : List Char) :
    Option (Nat × List Char × List Char × List Char) :=
  match ciFind openTag s with
  | none => none
  | some i =>
    let afterOpen := s.drop (i + openTag.length)
    match ciFind closeTag afterOpen with
    | none => none
    | some j =>
      some (i, (s.drop i).take (openTag.length + j + closeTag.length),
            afterOpen.take j, afterOpen.drop (j + closeTag.length))

/-- All spans of `s`, as (full text, inner text) pairs, in match order. -/
def scanTagsAux (openTag closeTag : List Char) : Nat → List Char → List (List Char × List Char)
  | 0, _ => []
  | fuel + 1, s =>
    match nextTagSpan openTag closeTag s with
    | none => []
    | some (_, full, inner, rest) => (full, inner) :: scanTagsAux openTag closeTag fuel rest

/-- All `openTag … closeTag` spans of `s` (each span consumes at least one
character, so `s.length + 1` steps of fuel always suffice). -/
def scanTags (openTag closeTag : String) (s : String) : List (List Char × List Char) :=
  scanTagsAux openTag.toList closeTag.toList (s.length + 1) s.toList

/-- JS `s.replace(/open[\s\S]*?close/gi, '')`: delete every span. -/
def removeTagSpansAux (openTag closeTag : List Char) : Nat → List Char → List Char
  | 0, s => s
  | fuel + 1, s =>
    match nextTagSpan openTag closeTag s with
    | none => s
    | some (i, _, _, rest) => s.take i ++ removeTagSpansAux openTag closeTag fuel rest

/-- Delete all `<tool_call>…</tool_call>` spans of `s`
(the `.replace(/<tool_call>[\s\S]*?<\/tool_call>/gi, '')` step of
`executeStream`). -/
def removeToolCallSpans (s : String) : String :=
  (removeTagSpansAux "<tool_call>".toList "</tool_call>".toList (s.length + 1) s.toList).asString

/-! ## JSON values

Model of the JavaScript values the orchestrator handles: `JSON.parse`
results, `JSON.stringify`, string coercion, truthiness and property access.
Numbers are restricted to integer literals (the only numbers appearing in
the orchestrator's own data); a fractional or exponent literal makes the
model parser fail. -/

inductive Json where
  | null : Json
  | bool (b : Bool) : Json
  | num (n : Int) : Json
  | str (s : String) : Json
  | arr (elems : List Json) : Json
  | obj (fields : List (String × Json)) : Json
deriving Repr

mutual

def decEqJson : (a b : Json) → Decidable (a = b)
  | .null, .null => .isTrue rfl
  | .bool a, .bool b =>
    match decEq a b with
    | .isTrue h => .isTrue (congrArg Json.bool h)
    | .isFalse h => .isFalse (fun hh => h (Json.bool.inj hh))
  | .num a, .num b =>
    match decEq a b with
    | .isTrue h => .isTrue (congrArg Json.num h)
    | .isFalse h => .isFalse (fun hh => h (Json.num.inj hh))
  | .str a, .str b =>
    match decEq a b with
    | .isTrue h => .isTrue (congrArg Json.str h)
    | .isFalse h => .isFalse (fun hh => h (Json.str.inj hh))
  | .arr a, .arr b =>
    match decEqJsonList a b with
    | .isTrue h => .isTrue (congrArg Json.arr h)
    | .isFalse h => .isFalse (fun hh => h (Json.arr.inj hh))
  | .obj a, .obj b =>
    match decEqJsonFields a b with
    | .isTrue h => .isTrue (congrArg Json.obj h)
    | .isFalse h => .isFalse (fun hh => h (Json.obj.inj hh))
  | .null, .bool _ => .isFalse (fun h => Json.noConfusion h)
  | .null, .num _ => .isFalse (fun h => Json.noConfusion h)
  | .null, .str _ => .isFalse (fun h => Json.noConfusion h)
  | .null, .arr _ => .isFalse (fun h => Json.noConfusion h)
  | .null, .obj _ => .isFalse (fun h => Json.noConfusion h)
  | .bool _, .null => .isFalse (fun h => Json.noConfusion h)
  | .bool _, .num _ => .isFalse (fun h => Json.noConfusion h)
  | .bool _, .str _ => .isFalse (fun h => Json.noConfusion h)
  | .bool _, .arr _ => .isFalse (fun h => Json.noConfusion h)
  | .bool _, .obj _ => .isFalse (fun h => Json.noConfusion h)
  | .num _, .null => .isFalse (fun h => Json.noConfusion h)
  | .num _, .bool _ => .isFalse (fun h => Json.noConfusion h)
  | .num _, .str _ => .isFalse (fun h => Json.noConfusion h)
  | .num _, .arr _ => .isFalse (fun h => Json.noConfusion h)
  | .num _, .obj _ => .isFalse (fun h => Json.noConfusion h)
  | .str _, .null => .isFalse (fun h => Json.noConfusion h)
  | .str _, .bool _ => .isFalse (fun h => Json.noConfusion h)
  | .str _, .num _ => .isFalse (fun h => Json.noConfusion h)
  | .str _, .arr _ => .isFalse (fun h => Json.noConfusion h)
  | .str _, .obj _ => .isFalse (fun h => Json.noConfusion h)
  | .arr _, .null => .isFalse (fun h => Json.noConfusion h)
  | .arr _, .bool _ => .isFalse (fun h => Json.noConfusion h)
  | .arr _, .num _ => .isFalse (fun h => Json.noConfusion h)
  | .arr _, .str _ => .isFalse (fun h => Json.noConfusion h)
  | .arr _, .obj _ => .isFalse (fun h => Json.noConfusion h)
  | .obj _, .null => .isFalse (fun h => Json.noConfusion h)
  | .obj _, .bool _ => .isFalse (fun h => Json.noConfusion h)
  | .obj _, .num _ => .isFalse (fun h => Json.noConfusion h)
  | .obj _, .str _ => .isFalse (fun h => Json.noConfusion h)
  | .obj _, .arr _ => .isFalse (fun h => Json.noConfusion h)

def decEqJsonList : (a b : List Json) → Decidable (a = b)
  | [], [] => .isTrue rfl
  | [], _ :: _ => .isFalse (fun h => List.noConfusion h)
  | _ :: _, [] => .isFalse (fun h => List.noConfusion h)
  | x :: xs, y :: ys =>
    match decEqJson x y, decEqJsonList xs ys with
    | .isTrue h1, .isTrue h2 => .isTrue (by rw [h1, h2])
    | .isFalse h1, _ => .isFalse (fun hh => h1 (List.cons.inj hh).1)
    | _, .isFalse h2 => .isFalse (fun hh => h2 (List.cons.inj hh).2)

def decEqJsonFields : (a b : List (String × Json)) → Decidable (a = b)
  | [], [] => .isTrue rfl
  | [], _ :: _ => .isFalse (fun h => List.noConfusion h)
  | _ :: _, [] => .isFalse (fun h => List.noConfusion h)
  | (k1, v1) :: xs, (k2, v2) :: ys =>
    match decEq k1 k2, decEqJson v1 v2, decEqJsonFields xs ys with
    | .isTrue h1, .isTrue h2, .isTrue h3 => .isTrue (by rw [h1, h2, h3])
    | .isFalse h1, _, _ => .isFalse (fun hh => h1 (congrArg Prod.fst (List.cons.inj hh).1))
    | _, .isFalse h2, _ => .isFalse (fun hh => h2 (congrArg Prod.snd (List.cons.inj hh).1))
    | _, _, .isFalse h3 => .isFalse (fun hh => h3 (List.cons.inj hh).2)

end

instance : DecidableEq Json := decEqJson

/-- JS truthiness of a parsed JSON value (`undefined` is handled separately
by the `Option` layer at each use site). -/
def jsTruthy : Json → Bool
  | .null => false
  | .bool b => b
  | .num n => !(n == 0)
  | .str s => !(s == "")
  | .arr _ => true
  | .obj _ => true

/-- JS property access `v[k]` on a parsed JSON value.  `none` models a thrown
`TypeError` (property access on `null`); `some none` models `undefined`;
`some (some x)` is a present property. -/
def jsGet (v : Json) (k : String) : Option (Option Json) :=
  match v with
  | .null => none
  | .obj fs => some (fs.lookup k)
  | _ => some none

/-- JS optional chaining `v?.k`, where `v : Option Json` encodes a value or
`undefined`.  Yields `undefined` instead of throwing. -/
def jsGetOpt (v : Option Json) (k : String) : Option Json :=
  match v with
  | none => none
  | some .null => none
  | some (.obj fs) => fs.lookup k
  | some _ => none

/-- JS truthiness of a value-or-`undefined`. -/
def jsTruthyOpt : Option Json → Bool
  | some v => jsTruthy v
  | none => false

/-- Property access on a value known not to be `null` (`undefined` on
non-objects). -/
def jsProp (v : Json) (k : String) : Option Json :=
  match v with
  | .obj fs => fs.lookup k
  | _ => none

/-- The nullish-coalescing key `tc.index ?? 0`. -/
def nullishKey (v : Option Json) : Json :=
  match v with
  | none => Json.num 0
  | some Json.null => Json.num 0
  | some x => x

/-- JS optional element access `v?.[i]`. -/
def jsIndexGet (v : Option Json) (i : Nat) : Option Json :=
  match v with
  | none => none
  | some .null => none
  | some (.arr xs) => xs.get? i
  | some (.obj fs) => fs.lookup (toString i)
  | some _ => none

/-- Insert (or overwrite in place) a key in a JS object literal: an existing
key keeps its position, a new key is appended, matching JS property order. -/
def objUpsert (fields : List (String × Json)) (k : String) (v : Json) :
    List (String × Json) :=
  if fields.any (fun f => f.1 == k) then
    fields.map (fun f => if f.1 == k then (k, v) else f)
  else fields ++ [(k, v)]

/-! ### JSON.stringify -/

/-- Escape one character for a JSON string literal, as `JSON.stringify`
does. -/
def quoteJsonChar (c : Char) : String :=
  if c = '"' then "\\\""
  else if c = '\\' then "\\\\"
  else if c = '\n' then "\\n"
  else if c = '\r' then "\\r"
  else if c = '\t' then "\\t"
  else if c = Char.ofNat 8 then "\\b"
  else if c = Char.ofNat 12 then "\\f"
  else if c.toNat < 32 then
    "\\u00" ++ String.mk [Nat.digitChar (c.toNat / 16), Nat.digitChar (c.toNat % 16)]
  else String.singleton c

/-- JSON string literal for `s`. -/
def quoteJsonStr (s : String) : String :=
  "\"" ++ String.join (s.toList.map quoteJsonChar) ++ "\""

mutual

/-- Model of `JSON.stringify` on parsed values. -/
def stringifyJson : Json → String
  | .null => "null"
  | .bool true => "true"
  | .bool false => "false"
  | .num n => toString n
  | .str s => quoteJsonStr s
  | .arr xs => "[" ++ stringifyList xs ++ "]"
  | .obj fs => "\x7b" ++ stringifyFields fs ++ "\x7d"

def stringifyList : List Json → String
  | [] => ""
  | [x] => stringifyJson x
  | x :: xs => stringifyJson x ++ "," ++ stringifyList xs

def stringifyFields : List (String × Json) → String
  | [] => ""
  | [(k, v)] => quoteJsonStr k ++ ":" ++ stringifyJson v
  | (k, v) :: fs => quoteJsonStr k ++ ":" ++ stringifyJson v ++ "," ++ stringifyFields fs

end

mutual

/-- JS string coercion `String(v)` of a parsed JSON value (used to model
`+=` and template-literal coercion of non-string data). -/
def jsToStr : Json → String
  | .null => "null"
  | .bool true => "true"
  | .bool false => "false"
  | .num n => toString n
  | .str s => s
  | .arr xs => jsToStrElems xs
  | .obj _ => "[object Object]"

def jsToStrElems : List Json → String
  | [] => ""
  | [Json.null] => ""
  | [x] => jsToStr x
  | Json.null :: xs => "," ++ jsToStrElems xs
  | x :: xs => jsToStr x ++ "," ++ jsToStrElems xs

end

/-- JS string coercion of a value-or-`undefined`. -/
def jsToStrOpt : Option Json → String
  | some v => jsToStr v
  | none => "undefined"

/-- The JS idiom `x || ''`: the coerced value when truthy, else the empty
string. -/
def jsOrEmpty (v : Option Json) : String :=
  if jsTruthyOpt v then jsToStrOpt v else ""

/-! ### JSON.parse -/

/-- One hex digit. -/
def hexVal (c : Char) : Option Nat :=
  if '0' ≤ c ∧ c ≤ '9' then some (c.toNat - 48)
  else if 'a' ≤ c ∧ c ≤ 'f' then some (c.toNat - 87)
  else if 'A' ≤ c ∧ c ≤ 'F' then some (c.toNat - 55)
  else none

/-- Parse the body of a JSON string literal (after the opening quote),
returning the decoded string and the rest of the input. -/
def parseStrAux : List Char → List Char → Option (String × List Char)
  | acc, '"' :: rest => some ((acc.reverse).asString, rest)
  | acc, '\\' :: '"' :: r => parseStrAux ('"' :: acc) r
  | acc, '\\' :: '\\' :: r => parseStrAux ('\\' :: acc) r
  | acc, '\\' :: '/' :: r => parseStrAux ('/' :: acc) r
  | acc, '\\' :: 'b' :: r => parseStrAux (Char.ofNat 8 :: acc) r
  | acc, '\\' :: 'f' :: r => parseStrAux (Char.ofNat 12 :: acc) r
  | acc, '\\' :: 'n' :: r => parseStrAux ('\n' :: acc) r
  | acc, '\\' :: 'r' :: r => parseStrAux ('\r' :: acc) r
  | acc, '\\' :: 't' :: r => parseStrAux ('\t' :: acc) r
  | acc, '\\' :: 'u' :: h1 :: h2 :: h3 :: h4 :: r =>
    match hexVal h1, hexVal h2, hexVal h3, hexVal h4 with
    | some a, some b, some c, some d =>
      parseStrAux (Char.ofNat (((a * 16 + b) * 16 + c) * 16 + d) :: acc) r
    | _, _, _, _ => none
  | _, '\\' :: _ => none
  | acc, c :: rest => if c.toNat < 32 then none else parseStrAux (c :: acc) rest
  | _, [] => none

/-- Consume a run of decimal digits. -/
def digitsVal (acc : Nat) : List Char → Nat × List Char
  | [] => (acc, [])
  | c :: rest =>
    if c.isDigit then digitsVal (acc * 10 + (c.toNat - 48)) rest else (acc, c :: rest)

/-- Parse a JSON integer literal (model restriction: a fraction or exponent
fails). -/
def parseIntLit (s : List Char) : Option (Int × List Char) :=
  let (neg, s1) := match s with
    | '-' :: r => (true, r)
    | _ => (false, s)
  match s1 with
  | [] => none
  | c :: rest =>
    if c.isDigit then
      if c = '0' && (match rest with | d :: _ => d.isDigit | [] => false) then none
      else
        let (n, r) := digitsVal 0 s1
        match r with
        | '.' :: _ => none
        | 'e' :: _ => none
        | 'E' :: _ => none
        | _ => some (if neg then -(n : Int) else (n : Int), r)
    else none

mutual

/-- Parse one JSON value from the front of the input; fuel bounds the nesting
recursion. -/
def parseVal : Nat → List Char → Option (Json × List Char)
  | 0, _ => none
  | fuel + 1, s =>
    match s.dropWhile isJsWs with
    | [] => none
    | '\x7b' :: rest =>
      (match rest.dropWhile isJsWs with
       | '\x7d' :: r2 => some (.obj [], r2)
       | r => parseFields fuel r [])
    | '[' :: rest =>
      (match rest.dropWhile isJsWs with
       | ']' :: r2 => some (.arr [], r2)
       | r => parseElems fuel r [])
    | '"' :: rest => (parseStrAux [] rest).map (fun p => (.str p.1, p.2))
    | 't' :: 'r' :: 'u' :: 'e' :: r => some (.bool true, r)
    | 'f' :: 'a' :: 'l' :: 's' :: 'e' :: r => some (.bool false, r)
    | 'n' :: 'u' :: 'l' :: 'l' :: r => some (.null, r)
    | s' => (parseIntLit s').map (fun p => (.num p.1, p.2))

/-- Parse the members of a JSON object (after `{`), accumulating fields with
JS duplicate-key semantics. -/
def parseFields : Nat → List Char → List (String × Json) → Option (Json × List Char)
  | 0, _, _ => none
  | fuel + 1, s, acc =>
    match s.dropWhile isJsWs with
    | '"' :: rest =>
      (match parseStrAux [] rest with
       | none => none
       | some (key, r1) =>
         match r1.dropWhile isJsWs with
         | ':' :: r2 =>
           (match parseVal fuel r2 with
            | none => none
            | some (v, r3) =>
              let acc' := objUpsert acc key v
              match r3.dropWhile isJsWs with
              | ',' :: r4 => parseFields fuel r4 acc'
              | '\x7d' :: r4 => some (.obj acc', r4)
              | _ => none)
         | _ => none)
    | _ => none

/-- Parse the elements of a JSON array (after `[`). -/
def parseElems : Nat → List Char → List Json → Option (Json × List Char)
  | 0, _, _ => none
  | fuel + 1, s, acc =>
    match parseVal fuel s with
    | none => none
    | some (v, r1) =>
      match r1.dropWhile isJsWs with
      | ',' :: r2 => parseElems fuel r2 (v :: acc)
      | ']' :: r2 => some (.arr (v :: acc).reverse, r2)
      | _ => none

end

/-- Model of `JSON.parse`: `none` is a thrown `SyntaxError`. -/
def jsonParse (s : String) : Option Json :=
  let cs := s.toList
  match parseVal (2 * cs.length + 4) cs with
  | some (v, rest) => if (rest.dropWhile isJsWs).isEmpty then some v else none
  | none => none

/-! ## LLM data model (`src/electron/main/ai/llm/types.ts`) -/

/-- Message roles. -/
inductive Role where
  | system
  | user
  | assistant
  | tool
deriving DecidableEq, Repr

/-- `ToolCall.function`. -/
structure ToolCallData where
  name : String
  arguments : String
deriving DecidableEq, Repr

/-- A structured tool call (the constant `type: 'function'` tag is omitted). -/
structure ToolCall where
  id : String
  function : ToolCallData
deriving DecidableEq, Repr

/-- A conversation message. -/
structure ChatMessage where
  role : Role
  content : String
  tool_calls : Option (List ToolCall) := none
  tool_call_id : Option String := none
deriving DecidableEq, Repr

/-- Finish reasons of a completion. -/
inductive FinishReason where
  | stop
  | length
  | tool_calls
  | error
deriving DecidableEq, Repr

/-- Token usage as carried on a stream frame; the fields hold whatever JSON
values `parsed.usage.*_tokens` had, or `undefined`. -/
structure Usage where
  promptTokens : Option Json := none
  completionTokens : Option Json := none
  totalTokens : Option Json := none
deriving Repr

/-- A non-streaming chat response (usage omitted: the orchestrator model does
not consume it). -/
structure ChatResponse where
  content : String
  finishReason : FinishReason
  tool_calls : Option (List ToolCall) := none
deriving Repr

/-- One chunk yielded by `chatStream`. -/
structure ChatStreamChunk where
  content : String
  isFinished : Bool
  finishReason : Option FinishReason := none
  tool_calls : Option (List ToolCall) := none
  usage : Option Usage := none
deriving Repr

/-! ## `DeepSeekService.chatStream` (`src/electron/main/ai/llm/deepseek.ts`)

The model starts at the read loop over the already-opened response body.
Network reads are an oracle list of `ReadRes`; the generator's output is the
list of yielded chunks together with the name of a re-thrown error, if any.
The abort flag is modelled by `abortFrom`: check number `k` (the check
before the `k`-th read) observes the flag as triggered iff
`abortFrom = some m` with `m ≤ k`. -/

/-- One result of `reader.read()`: a data chunk, end of stream, or a thrown
error with the given `name`. -/
inductive ReadRes where
  | chunk (s : String)
  | done
  | fail (name : String)
deriving DecidableEq, Repr

/-- Is the abort flag observed as triggered at check number `k`? -/
def abortActive (abortFrom : Option Nat) (k : Nat) : Bool :=
  match abortFrom with
  | none => false
  | some m => decide (m ≤ k)

/-- Accumulator entry of `toolCallsAccumulator` for one tool-call index. -/
structure AccEntry where
  id : String
  name : String
  arguments : String
deriving DecidableEq, Repr

/-- First entry of the accumulator for key `k` (JS `Map.get`). -/
def accFind (acc : List (Json × AccEntry)) (k : Json) : Option AccEntry :=
  match acc with
  | [] => none
  | (k', e) :: rest => if k' = k then some e else accFind rest k

/-- Update the entries with key `k` in place (JS `Map.set` on an existing
key keeps insertion order). -/
def accUpdate (acc : List (Json × AccEntry)) (k : Json) (f : AccEntry → AccEntry) :
    List (Json × AccEntry) :=
  match acc with
  | [] => []
  | (k', e) :: rest =>
    if k' = k then (k', f e) :: accUpdate rest k f
    else (k', e) :: accUpdate rest k f

/-- Process one element `tc` of a frame's `delta.tool_calls` array against
the accumulator.  `none` models the `TypeError` thrown by `tc.index` when
`tc` is `null`, which aborts the rest of the current line's processing while
keeping the mutations already made. -/
def applyFrag (acc : List (Json × AccEntry)) (tc : Json) :
    Option (List (Json × AccEntry)) :=
  match jsGet tc "index" with
  | none => none
  | some idxRaw =>
    let index : Json := nullishKey idxRaw
    match jsGet tc "function" with
    | none => none
    | some fnVal =>
      match accFind acc index with
      | some _ =>
        if jsTruthyOpt (jsGetOpt fnVal "arguments") then
          some (accUpdate acc index (fun e =>
            { e with arguments := e.arguments ++ jsToStrOpt (jsGetOpt fnVal "arguments") }))
        else some acc
      | none =>
        match jsGet tc "id" with
        | none => none
        | some idVal =>
          some (acc ++ [(index, { id := jsOrEmpty idVal,
                                  name := jsOrEmpty (jsGetOpt fnVal "name"),
                                  arguments := jsOrEmpty (jsGetOpt fnVal "arguments") })])

/-- Process a whole `delta.tool_calls` array; the boolean is `false` when a
fragment threw (which skips the rest of the line). -/
def applyFrags (acc : List (Json × AccEntry)) : List Json → List (Json × AccEntry) × Bool
  | [] => (acc, true)
  | tc :: rest =>
    match applyFrag acc tc with
    | none => (acc, false)
    | some acc' => applyFrags acc' rest

/-- Convert the accumulator, in insertion order, into finished tool calls
(`Array.from(toolCallsAccumulator.values()).map(...)`). -/
def flushToolCalls (acc : List (Json × AccEntry)) : List ToolCall :=
  acc.map (fun p => { id := p.2.id, function := { name := p.2.name, arguments := p.2.arguments } })

/-- The `finished(stop)` chunk. -/
def finStop : ChatStreamChunk := { content := "", isFinished := true, finishReason := some .stop }

/-- Map a truthy `finish_reason` JSON value to a `FinishReason`. -/
def mapFinishReason (v : Json) : FinishReason :=
  if v = .str "stop" then .stop
  else if v = .str "length" then .length
  else if v = .str "tool_calls" then .tool_calls
  else .error

/-- `parsed.usage ? {...} : undefined`. -/
def extractUsage (parsed : Json) : Option Usage :=
  match jsGet parsed "usage" with
  | some (some uv) =>
    if jsTruthy uv then
      some { promptTokens := jsGetOpt (some uv) "prompt_tokens",
             completionTokens := jsGetOpt (some uv) "completion_tokens",
             totalTokens := jsGetOpt (some uv) "total_tokens" }
    else none
  | _ => none

/-- Result of processing one `data:` line. -/
inductive LineOut where
  | events (evs : List ChatStreamChunk) (acc : List (Json × AccEntry)) : LineOut
  | finish (evs : List ChatStreamChunk) : LineOut
deriving Repr

/-- Process the payload of one `data: ` line ([DONE] handling, frame parsing,
content delta, tool-call fragment accumulation, finish handling).  A JSON
parse error or a thrown property access skips the rest of the line. -/
def processDataLine (acc : List (Json × AccEntry)) (data : String) : LineOut :=
  if data = "[DONE]" then
    if acc.length > 0 then
      .finish [{ content := "", isFinished := true, finishReason := some .tool_calls,
                 tool_calls := some (flushToolCalls acc) }]
    else
      .finish [finStop]
  else
    match jsonParse data with
    | none => .events [] acc
    | some parsed =>
      match jsGet parsed "choices" with
      | none => .events [] acc
      | some choicesVal =>
        let choice0 := jsIndexGet choicesVal 0
        let delta := jsGetOpt choice0 "delta"
        let contentEvs : List ChatStreamChunk :=
          match jsGetOpt delta "content" with
          | some v => if jsTruthy v then [{ content := jsToStr v, isFinished := false }] else []
          | none => []
        let (acc', ok) :=
          match jsGetOpt delta "tool_calls" with
          | some (Json.arr tcs) => applyFrags acc tcs
          | _ => (acc, true)
        if !ok then .events contentEvs acc'
        else
          match jsGetOpt choice0 "finish_reason" with
          | some fr =>
            if jsTruthy fr then
              let usage := extractUsage parsed
              if acc'.length > 0 then
                .finish (contentEvs ++
                  [{ content := "", isFinished := true, finishReason := some (mapFinishReason fr),
                     tool_calls := some (flushToolCalls acc'), usage := usage }])
              else
                .finish (contentEvs ++
                  [{ content := "", isFinished := true, finishReason := some (mapFinishReason fr),
                     usage := usage }])
            else .events contentEvs acc'
          | none => .events contentEvs acc'

/-- Keep only the payloads of well-formed `data: ` lines. -/
def lineData (line : String) : Option String :=
  let t := trimChars line.toList
  if t.isEmpty then none
  else if startsWithBy (· == ·) "data: ".toList t then some ((t.drop 6).asString)
  else none

/-- Process, in order, the complete lines produced by one network read; the
boolean is `true` when a line terminated the generator. -/
def processLineList (acc : List (Json × AccEntry)) (evs : List ChatStreamChunk) :
    List String → List ChatStreamChunk × List (Json × AccEntry) × Bool
  | [] => (evs, acc, false)
  | l :: rest =>
    match lineData l with
    | none => processLineList acc evs rest
    | some d =>
      match processDataLine acc d with
      | .events e acc' => processLineList acc' (evs ++ e) rest
      | .finish e => (evs ++ e, acc, true)

/-- The read-loop state: the buffered incomplete line and the tool-call
accumulator. -/
structure DsState where
  buffer : String
  acc : List (Json × AccEntry)

/-- The read loop of `DeepSeekService.chatStream`.  Returns the chunks
yielded from this point on and, in the second component, the name of a
re-thrown error (cancellation is never re-thrown). -/
def chatStreamAux (abortFrom : Option Nat) : List ReadRes → Nat → DsState →
    List ChatStreamChunk × Option String
  | [], k, _ =>
    if abortActive abortFrom k then ([finStop], none) else ([], none)
  | .done :: _, k, _ =>
    if abortActive abortFrom k then ([finStop], none) else ([], none)
  | .fail e :: _, k, _ =>
    if abortActive abortFrom k then ([finStop], none)
    else if e = "AbortError" then ([finStop], none)
    else ([], some e)
  | .chunk s :: rest, k, st =>
    if abortActive abortFrom k then ([finStop], none)
    else
      let combined := st.buffer ++ s
      let parts := (splitCharsOn '\n' combined.toList).map List.asString
      let buf' := (parts.getLast?).getD ""
      match processLineList st.acc [] parts.dropLast with
      | (evs, _, true) => (evs, none)
      | (evs, acc', false) =>
        let (evs', out) := chatStreamAux abortFrom rest (k + 1) { buffer := buf', acc := acc' }
        (evs ++ evs', out)

/-- Model of `DeepSeekService.chatStream` from the first read on. -/
def chatStreamModel (abortFrom : Option Nat) (reads : List ReadRes) :
    List ChatStreamChunk × Option String :=
  chatStreamAux abortFrom reads 0 { buffer := "", acc := [] }

/-! ## Fallback tag parsers (`src/electron/main/ai/agent.ts`) -/

/-- Return value of `extractThinkingContent`. -/
structure ExtractedThinking where
  thinking : String
  cleanContent : String
deriving DecidableEq, Repr

/-- Model of `extractThinkingContent`: match all
`/<think>([\s\S]*?)<\/think>/gi` spans; `thinking` is the trimmed inner
texts joined by newlines and trimmed; `cleanContent` is the input with the
first occurrence of each matched span's full text removed in match order,
then trimmed. -/
def extractThinkingContent (content : String) : ExtractedThinking :=
  let ms := scanTags "<think>" "</think>" content
  let thinking := ms.foldl (fun acc m => acc ++ trimChars m.2 ++ ['\n']) []
  let clean := ms.foldl (fun acc m => removeFirstOcc m.1 acc) content.toList
  { thinking := (trimChars thinking).asString, cleanContent := (trimChars clean).asString }

/-- Parse one `<tool_call>` span's inner text: `JSON.parse` it, require
truthy `name` and `arguments` properties, keep string arguments as-is and
`JSON.stringify` structured ones.  `none` means the span is skipped. -/
def parseSpanCall (inner : List Char) : Option (String × String) :=
  match jsonParse (trimChars inner).asString with
  | none => none
  | some parsed =>
    match jsGet parsed "name" with
    | none => none
    | some nameVal =>
      match nameVal with
      | none => none
      | some nv =>
        if !jsTruthy nv then none
        else
          match jsGet parsed "arguments" with
          | none => none
          | some argVal =>
            match argVal with
            | none => none
            | some av =>
              if !jsTruthy av then none
              else
                some (jsToStr nv,
                      match av with
                      | Json.str s => s
                      | _ => stringifyJson av)

/-- Model of `parseToolCallTags`: extract all
`/<tool_call>\s*([\s\S]*?)\s*<\/tool_call>/gi` spans, parse each span
(skipping the ones that fail), and return `none` when no span yields a
call.  `uuids` supplies the successive draws of `randomUUID()`. -/
def parseToolCallTags (uuids : Nat → String) (content : String) : Option (List ToolCall) :=
  let spans := scanTags "<tool_call>" "</tool_call>" content
  let calls := spans.filterMap (fun m => parseSpanCall m.2)
  let toolCalls : List ToolCall := calls.enum.map (fun p =>
    { id := "fallback-" ++ uuids p.1, function := { name := p.2.1, arguments := p.2.2 } })
  if toolCalls.length > 0 then some toolCalls else none

/-- Model of `hasToolCallTags` (`/<tool_call>/i.test(content)`). -/
def hasToolCallTags (content : String) : Bool := containsCI content "<tool_call>"

/-! ## Agent data model (`src/electron/main/ai/agent.ts`) -/

/-- Result of `executeToolCalls` for one call.  Modelled from the spec:
`executeToolCalls` (`src/electron/main/ai/tools/index.ts`) is not among the
sources; per spec §4.2 it returns one `{success, result|error}` value per
input call, in input order, never throwing. -/
inductive ToolOutcome where
  | ok (result : Json)
  | err (error : String)
deriving Repr

/-- The `maxToolRounds ?? 5` default applied by the `Agent` constructor. -/
def maxToolRoundsOf (cfg : Option Nat) : Nat := cfg.getD 5

/-- The forced-summary instruction turn appended when the round limit is
reached. -/
def summaryInstruction : String := "请根据已获取的信息给出回答，不要再调用工具。"

/-- `AgentResult`. -/
structure AgentResult where
  content : String
  toolsUsed : List String
  toolRounds : Nat
deriving DecidableEq, Repr

/-- One `AgentStreamChunk` sent to the `onChunk` callback. -/
inductive AgentEvent where
  | content (text : String)
  | tool_start (toolName : String) (toolParams : Option Json)
  | tool_result (toolName : String) (outcome : ToolOutcome)
  | done
deriving Repr

/-- Content of one appended tool-result turn
(`result.success ? JSON.stringify(result.result) : "错误: " + result.error`). -/
def toolResultContent (o : ToolOutcome) : String :=
  match o with
  | .ok r => stringifyJson r
  | .err e => "错误: " ++ e

namespace Agent

/-- The loop of `Agent.handleToolCalls` over the calls paired with their
results: appends one tool-result turn per call (tagged with the call id),
records the tool name, and reports one tool-result event per call. -/
def handleToolCallsLoop (msgs : List ChatMessage) (used : List String)
    (evs : List AgentEvent) :
    List (ToolCall × ToolOutcome) → List ChatMessage × List String × List AgentEvent
  | [] => (msgs, used, evs)
  | (tc, r) :: rest =>
    handleToolCallsLoop
      (msgs ++ [{ role := .tool, content := toolResultContent r,
                  tool_call_id := some tc.id }])
      (used ++ [tc.function.name])
      (evs ++ [AgentEvent.tool_result tc.function.name r])
      rest

/-- Model of `Agent.handleToolCalls`: append one assistant turn carrying the
calls (with empty visible content), then one tool-result turn per call in
call order.  `outcomes` stands for `await executeToolCalls(toolCalls,
context)` (see `ToolOutcome`). -/
def handleToolCalls (msgs : List ChatMessage) (used : List String)
    (toolCalls : List ToolCall) (outcomes : List ToolOutcome) :
    List ChatMessage × List String × List AgentEvent :=
  handleToolCallsLoop
    (msgs ++ [{ role := .assistant, content := "", tool_calls := some toolCalls }])
    used [] (toolCalls.zip outcomes)

/-- Environment of one `Agent.execute` run: the `chat` oracle (indexed by
the number of preceding model calls), the tool-execution oracle (indexed by
the round), the `randomUUID` stream and the abort schedule. -/
structure ExecuteEnv where
  responses : Nat → ChatResponse
  toolResults : Nat → List ToolCall → List ToolOutcome
  uuids : Nat → String
  abortFrom : Option Nat

/-- Observable outcome of an `Agent.execute` run: the returned
`AgentResult`, the final transcript, and one flag per issued model call
telling whether tool definitions were passed. -/
structure ExecTrace where
  result : AgentResult
  transcript : List ChatMessage
  callLog : List Bool
deriving Repr

/-- The `while (toolRounds < maxToolRounds)` loop of `Agent.execute`,
followed by the forced summary.  `fuel` is `maxToolRounds - toolRounds`,
`k` numbers the abort checks, `rIdx` counts the issued model calls. -/
def executeLoop (env : ExecuteEnv) : Nat → List ChatMessage → List String → Nat → Nat → Nat →
    ExecTrace
  | 0, msgs, used, rounds, _, rIdx =>
    -- round limit reached: append the instruction turn and issue exactly one
    -- model call without tool definitions, returning its content unconditionally
    { result := { content := (env.responses rIdx).content, toolsUsed := used,
                  toolRounds := rounds },
      transcript := msgs ++ [{ role := .user, content := summaryInstruction }],
      callLog := [false] }
  | fuel + 1, msgs, used, rounds, k, rIdx =>
    if abortActive env.abortFrom k then
      { result := { content := "", toolsUsed := used, toolRounds := rounds },
        transcript := msgs, callLog := [] }
    else
      let response := env.responses rIdx
      if response.finishReason = .tool_calls ∧ response.tool_calls.isSome then
        let calls := response.tool_calls.getD []
        let hc := handleToolCalls msgs used calls (env.toolResults rounds calls)
        let t := executeLoop env fuel hc.1 hc.2.1 (rounds + 1) (k + 1) (rIdx + 1)
        { t with callLog := true :: t.callLog }
      else if hasToolCallTags response.content then
        let cleaned := extractThinkingContent response.content
        match parseToolCallTags env.uuids response.content with
        | some fallbackCalls =>
          if fallbackCalls.length > 0 then
            let hc := handleToolCalls msgs used fallbackCalls
              (env.toolResults rounds fallbackCalls)
            let t := executeLoop env fuel hc.1 hc.2.1 (rounds + 1) (k + 1) (rIdx + 1)
            { t with callLog := true :: t.callLog }
          else
            { result := { content := cleaned.cleanContent, toolsUsed := used,
                          toolRounds := rounds },
              transcript := msgs, callLog := [true] }
        | none =>
          { result := { content := cleaned.cleanContent, toolsUsed := used,
                        toolRounds := rounds },
            transcript := msgs, callLog := [true] }
      else
        { result := { content := response.content, toolsUsed := used, toolRounds := rounds },
          transcript := msgs, callLog := [true] }

/-- Model of `Agent.execute`: entry abort check, transcript initialisation
(system prompt, prior history, new user turn), then `executeLoop`. -/
def execute (env : ExecuteEnv) (maxRounds : Nat) (systemPrompt : String)
    (history : List ChatMessage) (userMessage : String) : ExecTrace :=
  if abortActive env.abortFrom 0 then
    { result := { content := "", toolsUsed := [], toolRounds := 0 },
      transcript := [], callLog := [] }
  else
    executeLoop env maxRounds
      ([{ role := .system, content := systemPrompt }] ++ history ++
       [{ role := .user, content := userMessage }])
      [] 0 1 0

end Agent

/-! ### `Agent.executeStream`

The streaming entry point is modelled with the per-round chunk loop
(`roundStep`/`roundFold`) and the outer round loop (`streamLoop`).  The
`chatStream` generator is an oracle giving the chunk list of each model
call; abort checks are numbered sequentially (entry check `0`, then one per
loop top and one per received chunk). -/

/-- The `ToolContext` fields consulted by `executeStream` when reporting a
tool start; `timeFilter` is the JSON value forwarded to the renderer. -/
structure ToolContextM where
  timeFilter : Option Json := none

/-- The `toolParams` reported on a `tool_start` event:
`JSON.parse(tc.function.arguments || '{}')`, with `context.timeFilter`
spliced in as `_timeFilter` for the two search tools; an unparseable
argument text yields no params. -/
def toolStartParams (ctx : ToolContextM) (tc : ToolCall) : Option Json :=
  match jsonParse (if tc.function.arguments = "" then "\x7b\x7d" else tc.function.arguments) with
  | none => none
  | some p =>
    match ctx.timeFilter with
    | some tf =>
      if tc.function.name = "search_messages" ∨ tc.function.name = "get_recent_messages" then
        some (match p with
              | Json.obj fs => Json.obj (objUpsert fs "_timeFilter" tf)
              | _ => Json.obj [("_timeFilter", tf)])
      else some p
    | none => some p

/-- Per-round mutable state of the `for await` chunk loop. -/
structure RoundState where
  accumulated : String
  displayed : String
  toolCalls : Option (List ToolCall) := none
  buffering : Bool := false
deriving Repr

/-- Environment of one `Agent.executeStream` run. -/
structure StreamEnv where
  streams : Nat → List ChatStreamChunk
  toolResults : Nat → List ToolCall → List ToolOutcome
  uuids : Nat → String
  abortFrom : Option Nat

namespace Agent

/-- Process one streamed chunk of one round: abort check, content handling
with the tool-call buffering policy, `tool_calls` capture, and finish
handling (structured path, fallback parse, or normal completion).
`Sum.inl` continues the round, `Sum.inr` returns from `executeStream`. -/
def roundStep (env : StreamEnv) (finalContent : String) (used : List String) (rounds : Nat)
    (k : Nat) (st : RoundState) (c : ChatStreamChunk) :
    List AgentEvent × (RoundState ⊕ AgentResult) :=
  if abortActive env.abortFrom k then
    ([.done], .inr { content := finalContent ++ st.accumulated, toolsUsed := used,
                     toolRounds := rounds })
  else
    let (evs1, st1) :=
      if c.content = "" then ([], st)
      else
        let acc' := st.accumulated ++ c.content
        if st.buffering then (([] : List AgentEvent), { st with accumulated := acc' })
        else if containsCI acc' "<tool_call>" then
          match csIndexOf acc' "<tool_call>" with
          | some tagStart =>
            if strLen st.displayed < tagStart then
              ([AgentEvent.content (strSlice acc' (strLen st.displayed) tagStart)],
               { st with accumulated := acc', displayed := strTake acc' tagStart,
                         buffering := true })
            else ([], { st with accumulated := acc', buffering := true })
          | none => ([], { st with accumulated := acc', buffering := true })
        else
          ([AgentEvent.content c.content], { st with accumulated := acc', displayed := acc' })
    let st2 :=
      match c.tool_calls with
      | some tcs => { st1 with toolCalls := some tcs }
      | none => st1
    if c.isFinished then
      if c.finishReason ≠ some .tool_calls ∨ st2.toolCalls = none then
        if hasToolCallTags st2.accumulated then
          let cleaned := extractThinkingContent st2.accumulated
          match parseToolCallTags env.uuids st2.accumulated with
          | some fallbackCalls =>
            if fallbackCalls.length > 0 then
              let st3 := { st2 with toolCalls := some fallbackCalls,
                                    accumulated :=
                                      strTrim (removeToolCallSpans cleaned.cleanContent) }
              (evs1, .inl st3)
            else
              let remaining := strDrop cleaned.cleanContent (strLen st2.displayed)
              (evs1 ++ (if remaining = "" then [] else [AgentEvent.content remaining]) ++ [.done],
               .inr { content := cleaned.cleanContent, toolsUsed := used, toolRounds := rounds })
          | none =>
            let remaining := strDrop cleaned.cleanContent (strLen st2.displayed)
            (evs1 ++ (if remaining = "" then [] else [AgentEvent.content remaining]) ++ [.done],
             .inr { content := cleaned.cleanContent, toolsUsed := used, toolRounds := rounds })
        else
          (evs1 ++ [.done],
           .inr { content := (extractThinkingContent st2.accumulated).cleanContent,
                  toolsUsed := used, toolRounds := rounds })
      else (evs1, .inl st2)
    else (evs1, .inl st2)

/-- Fold `roundStep` over a round's chunk list; also returns the next abort
check number. -/
def roundFold (env : StreamEnv) (finalContent : String) (used : List String) (rounds : Nat) :
    Nat → RoundState → List ChatStreamChunk →
    List AgentEvent × (RoundState ⊕ AgentResult) × Nat
  | k, st, [] => ([], .inl st, k)
  | k, st, c :: rest =>
    match roundStep env finalContent used rounds k st c with
    | (evs, .inr r) => (evs, .inr r, k + 1)
    | (evs, .inl st') =>
      let (evs', out, k') := roundFold env finalContent used rounds (k + 1) st' rest
      (evs ++ evs', out, k')

/-- The final no-tools summary stream after the round limit: accumulate
content, emit content events, emit `done` on the finish chunk; an abort
check precedes each chunk and breaks with a `done` event. -/
def finalStreamFold (env : StreamEnv) : Nat → String → List ChatStreamChunk →
    String × List AgentEvent
  | _, fc, [] => (fc, [])
  | k, fc, c :: rest =>
    if abortActive env.abortFrom k then (fc, [.done])
    else
      let (fc', evs1) :=
        if c.content = "" then (fc, ([] : List AgentEvent))
        else (fc ++ c.content, [AgentEvent.content c.content])
      let evs2 : List AgentEvent := if c.isFinished then [.done] else []
      let (fc'', evs') := finalStreamFold env (k + 1) fc' rest
      (fc'', evs1 ++ evs2 ++ evs')

/-- The `while (toolRounds < maxToolRounds)` loop of `Agent.executeStream`
plus the post-loop forced summary.  `fuel` only bounds the recursion; a
`none` result marks the (divergent in the source) path where a round's
stream ends with neither a finish chunk nor tool calls until fuel runs
out. -/
def streamLoop (env : StreamEnv) (ctx : ToolContextM) (maxRounds : Nat) :
    Nat → List ChatMessage → List String → Nat → String → Nat → Nat →
    Option (AgentResult × List AgentEvent)
  | 0, _, _, _, _, _, _ => none
  | fuel + 1, msgs, used, rounds, finalContent, k, callIdx =>
    if rounds < maxRounds then
      if abortActive env.abortFrom k then
        some ({ content := finalContent, toolsUsed := used, toolRounds := rounds }, [.done])
      else
        let (evs, out, k') := roundFold env finalContent used rounds (k + 1)
          { accumulated := "", displayed := "" } (env.streams callIdx)
        match out with
        | .inr r => some (r, evs)
        | .inl st =>
          match st.toolCalls with
          | some tcs =>
            if tcs.length > 0 then
              let startEvs := tcs.map (fun tc =>
                AgentEvent.tool_start tc.function.name (toolStartParams ctx tc))
              let hc := handleToolCalls msgs used tcs (env.toolResults rounds tcs)
              match streamLoop env ctx maxRounds fuel hc.1 hc.2.1 (rounds + 1)
                  finalContent k' (callIdx + 1) with
              | none => none
              | some (r, evs') => some (r, evs ++ startEvs ++ hc.2.2 ++ evs')
            else
              match streamLoop env ctx maxRounds fuel msgs used rounds
                  finalContent k' (callIdx + 1) with
              | none => none
              | some (r, evs') => some (r, evs ++ evs')
          | none =>
            match streamLoop env ctx maxRounds fuel msgs used rounds
                finalContent k' (callIdx + 1) with
            | none => none
            | some (r, evs') => some (r, evs ++ evs')
    else
      if abortActive env.abortFrom k then
        some ({ content := finalContent, toolsUsed := used, toolRounds := rounds }, [.done])
      else
        let (finalContent', evs) := finalStreamFold env (k + 1) finalContent
          (env.streams callIdx)
        some ({ content := finalContent', toolsUsed := used, toolRounds := rounds }, evs)

/-- Model of `Agent.executeStream`: entry abort check (emitting a terminal
`done` event), transcript initialisation, then `streamLoop`. -/
def executeStream (env : StreamEnv) (ctx : ToolContextM) (maxRounds : Nat)
    (systemPrompt : String) (history : List ChatMessage) (userMessage : String) :
    Option (AgentResult × List AgentEvent) :=
  if abortActive env.abortFrom 0 then
    some ({ content := "", toolsUsed := [], toolRounds := 0 }, [.done])
  else
    streamLoop env ctx maxRounds (maxRounds + 1)
      ([{ role := .system, content := systemPrompt }] ++ history ++
       [{ role := .user, content := userMessage }])
      [] 0 "" 1 0

end Agent

/-! ## The `agent:abort` IPC handler (`src/electron/main/ipc/ai.ts`)

`activeAgentRequests` is a module-level `Map` from request id to
`AbortController`; a controller is modelled by its `aborted` flag.  The
handler never throws: it reports failure as a returned value. -/

/-- `Map.get` on the request registry. -/
def mapGet (m : List (String × Bool)) (k : String) : Option Bool :=
  match m with
  | [] => none
  | (k', v) :: rest => if k' = k then some v else mapGet rest k

/-- `Map.delete` on the request registry. -/
def mapDelete (m : List (String × Bool)) (k : String) : List (String × Bool) :=
  m.filter (fun p => p.1 ≠ k)

/-- Observable outcome of one `agent:abort` invocation: the new registry,
the returned `success` flag, and the triggered controller's `aborted` flag
(`some true` exactly when a handle was fired). -/
structure AbortOutcome where
  registry : List (String × Bool)
  success : Bool
  fired : Option Bool
deriving DecidableEq, Repr

/-- Model of the `agent:abort` handler: look up the registered controller,
trigger it, remove it, and return `success := true`; an unknown (or already
completed and hence removed) id returns `success := false` with the
registry unchanged. -/
def agentAbort (registry : List (String × Bool)) (requestId : String) : AbortOutcome :=
  match mapGet registry requestId with
  | some _ =>
    { registry := mapDelete registry requestId, success := true, fired := some true }
  | none => { registry := registry, success := false, fired := none }

/-! ## Helper lemmas -/

theorem mapGet_mapDelete (m : List (String × Bool)) (k : String) :
    mapGet (mapDelete m k) k = none := by
  induction m with
  | nil => rfl
  | cons p rest ih =>
    by_cases h : p.1 = k
    · simpa [mapDelete, List.filter, h] using ih
    · simpa [mapDelete, List.filter, h, mapGet] using ih

theorem chatStreamAux_aborted (m k : Nat) (st : DsState) (reads : List ReadRes)
    (h : m ≤ k) : chatStreamAux (some m) reads k st = ([finStop], none) := by
  have ha : abortActive (some m) k = true := by simp [abortActive, h]
  cases reads with
  | nil => simp [chatStreamAux, ha]
  | cons r rest => cases r <;> simp [chatStreamAux, ha]

/-! ## C9: the `agent:abort` handler -/

/-- C9: `abort(requestId)` looks up the registered handle, triggers it and
removes it from the registry; an unknown or already-completed id yields a
returned failure (the model is a total function, mirroring the handler's
lack of any throwing operation), and repeating the call with the same id
reports failure and leaves the registry unchanged (idempotence). -/
theorem agentAbort_spec :
    (∀ reg id c, mapGet reg id = some c →
       agentAbort reg id =
         { registry := mapDelete reg id, success := true, fired := some true }) ∧
    (∀ reg id, mapGet reg id = none →
       agentAbort reg id = { registry := reg, success := false, fired := none }) ∧
    (∀ reg id, agentAbort (agentAbort reg id).registry id =
       { registry := (agentAbort reg id).registry, success := false, fired := none }) := by
  refine ⟨?_, ?_, ?_⟩
  · intro reg id c h
    unfold agentAbort
    rw [h]
  · intro reg id h
    unfold agentAbort
    rw [h]
  · intro reg id
    cases h : mapGet reg id with
    | none => simp [agentAbort, h]
    | some c => simp [agentAbort, h, mapGet_mapDelete]

/-- Witness for C9 at concrete inputs. -/
theorem agentAbort_spec_witness :
    agentAbort [("r1", false)] "r1" =
      { registry := [], success := true, fired := some true } ∧
    agentAbort [] "r1" = { registry := [], success := false, fired := none } ∧
    agentAbort (agentAbort [("r1", false)] "r1").registry "r1" =
      { registry := (agentAbort [("r1", false)] "r1").registry, success := false,
        fired := none } := by
  refine ⟨?_, agentAbort_spec.2.1 [] "r1" rfl, agentAbort_spec.2.2 [("r1", false)] "r1"⟩
  rw [agentAbort_spec.1 [("r1", false)] "r1" false rfl]
  rfl

/-! ## C6: cancellation in `chatStream` -/

/-- C6: the reader loop checks the abort flag before each read; a triggered
flag, or an in-flight `AbortError`, makes the generator yield a single
`finished(stop)` chunk and end — it neither re-throws nor reports a
transport error. -/
theorem chatStream_cancellation :
    (∀ reads, chatStreamModel (some 0) reads = ([finStop], none)) ∧
    (∀ m k st reads, m ≤ k → chatStreamAux (some m) reads k st = ([finStop], none)) ∧
    (∀ abortFrom k st rest, abortActive abortFrom k = false →
       chatStreamAux abortFrom (ReadRes.fail "AbortError" :: rest) k st =
         ([finStop], none)) := by
  refine ⟨?_, ?_, ?_⟩
  · intro reads
    exact chatStreamAux_aborted 0 0 _ reads (Nat.le_refl 0)
  · intro m k st reads h
    exact chatStreamAux_aborted m k st reads h
  · intro abortFrom k st rest h
    simp [chatStreamAux, h]

/-- Witness for C6 at concrete inputs. -/
theorem chatStream_cancellation_witness :
    chatStreamModel (some 0) [ReadRes.chunk "data: x\n"] = ([finStop], none) ∧
    chatStreamAux (some 2) [] 3 { buffer := "", acc := [] } = ([finStop], none) ∧
    chatStreamAux none (ReadRes.fail "AbortError" :: []) 0 { buffer := "", acc := [] } =
      ([finStop], none) :=
  ⟨chatStream_cancellation.1 _,
   chatStream_cancellation.2.1 2 3 { buffer := "", acc := [] } [] (by decide),
   chatStream_cancellation.2.2 none 0 { buffer := "", acc := [] } [] (by decide)⟩

/-! ## C8: `extractThinkingContent` -/

theorem scanTags_of_not_contains (openT closeT s : String)
    (h : containsCI s openT = false) : scanTags openT closeT s = [] := by
  have hf : ciFind openT.toList s.toList = none := by
    cases hc : ciFind openT.toList s.toList with
    | none => rfl
    | some i =>
      unfold containsCI at h
      rw [hc] at h
      simp at h
  unfold scanTags scanTagsAux nextTagSpan
  rw [hf]

/-- C8 counterexample: `" hi "` contains zero thinking spans, yet the
returned remainder is the trimmed `"hi"`, not the unchanged input. -/
theorem extractThinking_trim_counterexample :
    scanTags "<think>" "</think>" " hi " = [] ∧
    extractThinkingContent " hi " = { thinking := "", cleanContent := "hi" } ∧
    extractThinkingContent " hi " ≠ { thinking := "", cleanContent := " hi " } :=
  ⟨rfl, rfl, by decide⟩

/-- The trimmed inner contents of the matched spans, joined by single
newlines — the amended claim's description of the thinking output before
the final trim. -/
def joinInners : List (List Char × List Char) → List Char
  | [] => []
  | [m] => trimChars m.2
  | m :: ms => trimChars m.2 ++ '\n' :: joinInners ms

theorem trimChars_append_ws (x : List Char) (c : Char) (h : isJsWs c = true) :
    trimChars (x ++ [c]) = trimChars x := by
  unfold trimChars
  rw [List.dropWhile_append]
  cases hd : x.dropWhile isJsWs with
  | nil => simp [List.dropWhile, h]
  | cons a l => simp [List.dropWhile, h]

theorem thinkFold_shift (ms : List (List Char × List Char)) :
    ∀ acc : List Char,
      ms.foldl (fun a m => a ++ trimChars m.2 ++ ['\n']) acc =
        acc ++ ms.foldl (fun a m => a ++ trimChars m.2 ++ ['\n']) [] := by
  induction ms with
  | nil => intro acc; simp
  | cons m rest ih =>
    intro acc
    simp only [List.foldl_cons]
    rw [ih (acc ++ trimChars m.2 ++ ['\n']), ih ([] ++ trimChars m.2 ++ ['\n'])]
    simp [List.append_assoc]

theorem thinkFold_closed (ms : List (List Char × List Char)) (h : ms ≠ []) :
    ms.foldl (fun a m => a ++ trimChars m.2 ++ ['\n']) [] = joinInners ms ++ ['\n'] := by
  induction ms with
  | nil => exact absurd rfl h
  | cons m rest ih =>
    simp only [List.foldl_cons]
    rw [thinkFold_shift]
    cases rest with
    | nil => simp [joinInners]
    | cons m2 rest2 =>
      rw [ih (by simp)]
      simp [joinInners, List.append_assoc]

theorem thinkingFold_trim_eq (ms : List (List Char × List Char)) :
    trimChars (ms.foldl (fun a m => a ++ trimChars m.2 ++ ['\n']) []) =
      trimChars (joinInners ms) := by
  cases ms with
  | nil => rfl
  | cons m rest =>
    rw [thinkFold_closed (m :: rest) (by simp)]
    exact trimChars_append_ws _ '\n' (by decide)

/-- C8 (amended): for every input, `extractThinkingContent` matches the
well-formed thinking spans, returns as thinking the trimmed inner contents
joined by newlines (trimmed overall), and as remainder the input with, for
each matched span in order, the first occurrence of its exact text deleted,
then trimmed of leading/trailing whitespace.  In particular a multi-span
text (case-insensitive delimiters) and a text whose span text recurs are
computed below, and on a text with zero well-formed spans the thinking is
empty and the remainder is the input trimmed — unchanged exactly when the
input carries no surrounding whitespace (unmatched or lone delimiters give
zero spans and are left in place). -/
theorem extractThinking_spans_spec :
    (∀ s, extractThinkingContent s =
       { thinking := (trimChars (joinInners (scanTags "<think>" "</think>" s))).asString,
         cleanContent := (trimChars ((scanTags "<think>" "</think>" s).foldl
             (fun acc m => removeFirstOcc m.1 acc) s.toList)).asString }) ∧
    extractThinkingContent " a<think> x </think>b<THINK>y</THINK>c " =
      { thinking := "x\ny", cleanContent := "abc" } ∧
    extractThinkingContent "<th<think>z</think>ink>a</think>MID<think>a</think>" =
      { thinking := "z\na", cleanContent := "MID<think>a</think>" } ∧
    (∀ s, scanTags "<think>" "</think>" s = [] →
       extractThinkingContent s = { thinking := "", cleanContent := strTrim s }) ∧
    (∀ s, containsCI s "<think>" = false → scanTags "<think>" "</think>" s = []) ∧
    (∀ s, scanTags "<think>" "</think>" s = [] → strTrim s = s →
       extractThinkingContent s = { thinking := "", cleanContent := s }) := by
  have base : ∀ s, scanTags "<think>" "</think>" s = [] →
      extractThinkingContent s = { thinking := "", cleanContent := strTrim s } := by
    intro s h
    unfold extractThinkingContent
    rw [h]
    rfl
  refine ⟨?_, rfl, rfl, base, ?_, ?_⟩
  · intro s
    simp only [extractThinkingContent]
    rw [thinkingFold_trim_eq (scanTags "<think>" "</think>" s)]
  · intro s h
    exact scanTags_of_not_contains _ _ _ h
  · intro s h ht
    rw [base s h, ht]

/-- Witness for C8 at concrete inputs. -/
theorem extractThinking_spans_spec_witness :
    extractThinkingContent "a<think>b</think>" =
      { thinking :=
          (trimChars (joinInners (scanTags "<think>" "</think>" "a<think>b</think>"))).asString,
        cleanContent :=
          (trimChars ((scanTags "<think>" "</think>" "a<think>b</think>").foldl
              (fun acc m => removeFirstOcc m.1 acc) "a<think>b</think>".toList)).asString } ∧
    extractThinkingContent " a b " = { thinking := "", cleanContent := strTrim " a b " } ∧
    scanTags "<think>" "</think>" "plain" = [] ∧
    extractThinkingContent "plain" = { thinking := "", cleanContent := "plain" } :=
  ⟨extractThinking_spans_spec.1 "a<think>b</think>",
   extractThinking_spans_spec.2.2.2.1 " a b " rfl,
   extractThinking_spans_spec.2.2.2.2.1 "plain" rfl,
   extractThinking_spans_spec.2.2.2.2.2 "plain" rfl rfl⟩

/-! ## C4: `parseToolCallTags` -/

/-- A text with three tool-call spans: the middle one's inner text is not
valid JSON; the first carries string arguments, the last structured ones. -/
def c4input : String :=
  "<tool_call>\x7b\"name\":\"a\",\"arguments\":\"x=1\"\x7d</tool_call> mid " ++
  "<tool_call>nope</tool_call> tail " ++
  "<tool_call>\x7b\"name\":\"b\",\"arguments\":\x7b\"q\":1\x7d\x7d</tool_call>"

/-- C4: `parseToolCallTags` never returns an empty list — zero valid spans
yield `none`; a span whose inner text fails to parse is skipped while every
other valid span still yields a call, with string arguments kept as-is and
structured arguments serialized to text. -/
theorem parseToolCallTags_spec :
    (∀ u s, parseToolCallTags u s ≠ some []) ∧
    (∀ u s,
       (scanTags "<tool_call>" "</tool_call>" s).filterMap (fun m => parseSpanCall m.2) = [] →
       parseToolCallTags u s = none) ∧
    parseToolCallTags (fun n => toString n) c4input =
      some [{ id := "fallback-0", function := { name := "a", arguments := "x=1" } },
            { id := "fallback-1", function := { name := "b", arguments := "\x7b\"q\":1\x7d" } }] := by
  refine ⟨?_, ?_, rfl⟩
  · intro u s h
    simp only [parseToolCallTags] at h
    split at h
    · next hl =>
      rw [Option.some.injEq] at h
      rw [h] at hl
      simp at hl
    · exact Option.noConfusion h
  · intro u s h
    simp only [parseToolCallTags]
    rw [h]
    rfl

/-- Witness for C4 at concrete inputs. -/
theorem parseToolCallTags_spec_witness :
    parseToolCallTags (fun _ => "u") "no spans here" ≠ some [] ∧
    parseToolCallTags (fun _ => "u") "<tool_call>bad</tool_call>" = none :=
  ⟨parseToolCallTags_spec.1 (fun _ => "u") "no spans here",
   parseToolCallTags_spec.2.1 (fun _ => "u") "<tool_call>bad</tool_call>" rfl⟩

/-! ## C1: round limit and forced summary in `Agent.execute` -/

theorem executeLoop_rounds_le (env : Agent.ExecuteEnv) :
    ∀ fuel msgs used rounds k rIdx,
      (Agent.executeLoop env fuel msgs used rounds k rIdx).result.toolRounds ≤
        rounds + fuel := by
  intro fuel
  induction fuel with
  | zero =>
    intro msgs used rounds k rIdx
    simp [Agent.executeLoop]
  | succ n ih =>
    intro msgs used rounds k rIdx
    simp only [Agent.executeLoop]
    split
    · simp
    · split
      · exact le_trans (ih _ _ (rounds + 1) (k + 1) (rIdx + 1)) (by omega)
      · split
        · split
          · split
            · exact le_trans (ih _ _ (rounds + 1) (k + 1) (rIdx + 1)) (by omega)
            · simp
          · simp
        · simp

/-- C1: `execute` performs at most `maxRounds` tool-executing rounds; once
the limit is reached while the model still asks for tools, the loop appends
the single no-more-tools instruction turn, issues exactly one further model
call with tool definitions omitted (`callLog = [false]`), and returns that
call's content unconditionally — the equation holds for every oracle
response, including ones carrying tool-call markers; the constructor default
for the limit is 5. -/
theorem execute_round_limit :
    (∀ env maxRounds sys hist user,
       (Agent.execute env maxRounds sys hist user).result.toolRounds ≤ maxRounds) ∧
    (∀ env msgs used rounds k rIdx,
       Agent.executeLoop env 0 msgs used rounds k rIdx =
         { result := { content := (env.responses rIdx).content, toolsUsed := used,
                       toolRounds := rounds },
           transcript := msgs ++ [{ role := .user, content := summaryInstruction }],
           callLog := [false] }) ∧
    maxToolRoundsOf none = 5 := by
  refine ⟨?_, ?_, rfl⟩
  · intro env maxRounds sys hist user
    unfold Agent.execute
    split
    · simp
    · simpa using executeLoop_rounds_le env maxRounds _ [] 0 1 0
  · intro env msgs used rounds k rIdx
    rfl

/-! ## C3: transcript structure of tool execution -/

theorem handleToolCallsLoop_spec (pairs : List (ToolCall × ToolOutcome)) :
    ∀ msgs used evs, Agent.handleToolCallsLoop msgs used evs pairs =
      (msgs ++ pairs.map (fun p => { role := .tool, content := toolResultContent p.2,
                                     tool_call_id := some p.1.id }),
       used ++ pairs.map (fun p => p.1.function.name),
       evs ++ pairs.map (fun p => AgentEvent.tool_result p.1.function.name p.2)) := by
  induction pairs with
  | nil =>
    intro msgs used evs
    simp [Agent.handleToolCallsLoop]
  | cons p rest ih =>
    intro msgs used evs
    cases p with
    | mk tc r =>
      simp only [Agent.handleToolCallsLoop, ih, List.map_cons]
      simp [List.append_assoc]

/-- The run used for the C3 counterexample: the first model response carries
no structured tool calls but embeds one tagged tool call after provisional
text; the second response completes normally. -/
def c3resp0 : ChatResponse :=
  { content := "Some note <tool_call>\x7b\"name\":\"t1\",\"arguments\":\"\x7b\x7d\"\x7d</tool_call>",
    finishReason := .stop }

def c3resp1 : ChatResponse := { content := "done", finishReason := .stop }

def c3env : Agent.ExecuteEnv :=
  { responses := fun n => if n = 0 then c3resp0 else c3resp1,
    toolResults := fun _ _ => [ToolOutcome.ok (Json.obj [])],
    uuids := fun n => toString n,
    abortFrom := none }

/-- C3 counterexample: on the fallback path the appended assistant turn's
visible content is the empty string, not the cleaned provisional text
(which here is non-empty). -/
theorem assistant_turn_content_counterexample :
    (Agent.execute c3env 5 "SYS" [] "question").transcript.get? 2 =
      some { role := .assistant, content := "",
             tool_calls := some [{ id := "fallback-0",
                                   function := { name := "t1", arguments := "\x7b\x7d" } }] } ∧
    (extractThinkingContent c3resp0.content).cleanContent ≠ "" :=
  ⟨rfl, by decide⟩

/-- C3 (amended): entering the tool-executing step with a non-empty call
list appends exactly one assistant turn carrying the calls — with empty
visible content on the structured and the fallback path alike — then exactly
one tool-result turn per call in call order, each tagged with its call id
and holding the serialized result or an error description; tool names are
recorded in order, and the loop re-enters with the round counter
incremented. -/
theorem handleToolCalls_transcript :
    (∀ msgs used calls outcomes, calls ≠ [] →
       outcomes.length = calls.length →
       Agent.handleToolCalls msgs used calls outcomes =
         (msgs ++ [{ role := .assistant, content := "", tool_calls := some calls }] ++
            (calls.zip outcomes).map (fun p =>
              { role := .tool, content := toolResultContent p.2,
                tool_call_id := some p.1.id }),
          used ++ calls.map (fun tc => tc.function.name),
          (calls.zip outcomes).map (fun p =>
            AgentEvent.tool_result p.1.function.name p.2))) ∧
    (∀ env msgs used rounds k rIdx fuel calls,
       abortActive env.abortFrom k = false →
       (env.responses rIdx).finishReason = .tool_calls →
       (env.responses rIdx).tool_calls = some calls →
       Agent.executeLoop env (fuel + 1) msgs used rounds k rIdx =
         (let hc := Agent.handleToolCalls msgs used calls (env.toolResults rounds calls)
          let t := Agent.executeLoop env fuel hc.1 hc.2.1 (rounds + 1) (k + 1) (rIdx + 1)
          { t with callLog := true :: t.callLog })) := by
  constructor
  · intro msgs used calls outcomes _ hlen
    unfold Agent.handleToolCalls
    rw [handleToolCallsLoop_spec]
    have hfst : (calls.zip outcomes).map Prod.fst = calls :=
      List.map_fst_zip calls outcomes (le_of_eq hlen.symm)
    have hnames : (calls.zip outcomes).map (fun p => p.1.function.name) =
        calls.map (fun tc => tc.function.name) := by
      rw [show (fun p : ToolCall × ToolOutcome => p.1.function.name) =
            ((fun tc : ToolCall => tc.function.name) ∘ Prod.fst) from rfl,
          ← List.map_map, hfst]
    rw [hnames]
    simp [List.append_assoc]
  · intro env msgs used rounds k rIdx fuel calls ha hf ht
    simp only [Agent.executeLoop, ha, hf, ht]
    simp

/-- A concrete structured tool call and environment for the C3 witness. -/
def c3call : ToolCall := { id := "c1", function := { name := "t", arguments := "\x7b\x7d" } }

def c3senv : Agent.ExecuteEnv :=
  { responses := fun _ => { content := "", finishReason := .tool_calls,
                            tool_calls := some [c3call] },
    toolResults := fun _ _ => [ToolOutcome.err "x"],
    uuids := fun n => toString n,
    abortFrom := none }

/-- Witness for C3 (amended) at concrete inputs. -/
theorem handleToolCalls_transcript_witness :
    Agent.handleToolCalls [] [] [c3call] [ToolOutcome.err "x"] =
      ([{ role := .assistant, content := "", tool_calls := some [c3call] }] ++
         ([c3call].zip [ToolOutcome.err "x"]).map (fun p =>
           { role := .tool, content := toolResultContent p.2,
             tool_call_id := some p.1.id }),
       [c3call].map (fun tc => tc.function.name),
       ([c3call].zip [ToolOutcome.err "x"]).map (fun p =>
         AgentEvent.tool_result p.1.function.name p.2)) ∧
    Agent.executeLoop c3senv 1 [] [] 0 1 0 =
      (let hc := Agent.handleToolCalls [] [] [c3call] (c3senv.toolResults 0 [c3call])
       let t := Agent.executeLoop c3senv 0 hc.1 hc.2.1 1 2 1
       { t with callLog := true :: t.callLog }) := by
  constructor
  · have h := handleToolCalls_transcript.1 [] [] [c3call] [ToolOutcome.err "x"]
      (by decide) rfl
    simpa using h
  · exact handleToolCalls_transcript.2 c3senv [] [] 0 1 0 0 [c3call] rfl rfl rfl

/-! ## C7: cancellation before and during model calls -/

/-- C7: a token already triggered before the first model call makes
`execute` and `executeStream` return immediately with empty content, empty
tools-used list and zero rounds (`executeStream` emitting exactly the
terminal done event, `execute` issuing no model call); and at every later
observation point — the loop top of either entry point and every streamed
chunk — an observed cancellation yields the accumulated result plus a
terminal done event, never an error. -/
theorem cancellation_clean_return :
    (∀ env maxRounds sys hist user, env.abortFrom = some 0 →
       Agent.execute env maxRounds sys hist user =
         { result := { content := "", toolsUsed := [], toolRounds := 0 },
           transcript := [], callLog := [] }) ∧
    (∀ env ctx maxRounds sys hist user, env.abortFrom = some 0 →
       Agent.executeStream env ctx maxRounds sys hist user =
         some ({ content := "", toolsUsed := [], toolRounds := 0 }, [.done])) ∧
    (∀ env fuel msgs used rounds k rIdx, abortActive env.abortFrom k = true →
       Agent.executeLoop env (fuel + 1) msgs used rounds k rIdx =
         { result := { content := "", toolsUsed := used, toolRounds := rounds },
           transcript := msgs, callLog := [] }) ∧
    (∀ env ctx maxRounds fuel msgs used rounds finalContent k callIdx,
       abortActive env.abortFrom k = true → rounds < maxRounds →
       Agent.streamLoop env ctx maxRounds (fuel + 1) msgs used rounds finalContent k callIdx =
         some ({ content := finalContent, toolsUsed := used, toolRounds := rounds },
               [.done])) ∧
    (∀ env finalContent used rounds k st c, abortActive env.abortFrom k = true →
       Agent.roundStep env finalContent used rounds k st c =
         ([.done], .inr { content := finalContent ++ st.accumulated, toolsUsed := used,
                          toolRounds := rounds })) := by
  refine ⟨?_, ?_, ?_, ?_, ?_⟩
  · intro env maxRounds sys hist user h
    have ha : abortActive env.abortFrom 0 = true := by simp [abortActive, h]
    simp [Agent.execute, ha]
  · intro env ctx maxRounds sys hist user h
    have ha : abortActive env.abortFrom 0 = true := by simp [abortActive, h]
    simp [Agent.executeStream, ha]
  · intro env fuel msgs used rounds k rIdx ha
    simp [Agent.executeLoop, ha]
  · intro env ctx maxRounds fuel msgs used rounds finalContent k callIdx ha hr
    simp [Agent.streamLoop, ha, hr]
  · intro env finalContent used rounds k st c ha
    simp [Agent.roundStep, ha]

/-- The environments used by the C7 witness. -/
def c7env : Agent.ExecuteEnv :=
  { responses := fun _ => c3resp1,
    toolResults := fun _ _ => [],
    uuids := fun n => toString n,
    abortFrom := some 0 }

def c7senv : StreamEnv :=
  { streams := fun _ => [{ content := "x", isFinished := false }],
    toolResults := fun _ _ => [],
    uuids := fun n => toString n,
    abortFrom := some 0 }

def c7senv1 : StreamEnv := { c7senv with abortFrom := some 1 }

/-- Witness for C7 at concrete inputs. -/
theorem cancellation_clean_return_witness :
    Agent.execute c7env 5 "S" [] "U" =
      { result := { content := "", toolsUsed := [], toolRounds := 0 },
        transcript := [], callLog := [] } ∧
    Agent.executeStream c7senv {} 5 "S" [] "U" =
      some ({ content := "", toolsUsed := [], toolRounds := 0 }, [.done]) ∧
    Agent.executeLoop c7env 4 [] ["t"] 1 2 1 =
      { result := { content := "", toolsUsed := ["t"], toolRounds := 1 },
        transcript := [], callLog := [] } ∧
    Agent.streamLoop c7senv1 {} 5 3 [] [] 0 "fc" 1 0 =
      some ({ content := "fc", toolsUsed := [], toolRounds := 0 }, [.done]) ∧
    Agent.roundStep c7senv1 "fc" ["t"] 1 2
        { accumulated := "acc", displayed := "" } { content := "y", isFinished := false } =
      ([.done], .inr { content := "fcacc", toolsUsed := ["t"], toolRounds := 1 }) := by
  refine ⟨cancellation_clean_return.1 c7env 5 "S" [] "U" rfl,
          cancellation_clean_return.2.1 c7senv {} 5 "S" [] "U" rfl,
          ?_, ?_, ?_⟩
  · exact cancellation_clean_return.2.2.1 c7env 3 [] ["t"] 1 2 1 (by decide)
  · exact cancellation_clean_return.2.2.2.1 c7senv1 {} 5 2 [] [] 0 "fc" 1 0 (by decide)
      (by decide)
  · have h := cancellation_clean_return.2.2.2.2 c7senv1 "fc" ["t"] 1 2
      { accumulated := "acc", displayed := "" } { content := "y", isFinished := false }
      (by decide)
    simpa using h

/-! ## C5: content withholding while a tool-call tag is suspected -/

theorem roundStep_buffering (env : StreamEnv) (fc : String) (used : List String)
    (rounds k : Nat) (st : RoundState) (c : ChatStreamChunk)
    (hb : st.buffering = true) (ha : abortActive env.abortFrom k = false)
    (hf : c.isFinished = false) :
    ∃ st', Agent.roundStep env fc used rounds k st c = ([], .inl st') ∧
      st'.buffering = true := by
  unfold Agent.roundStep
  rw [ha, hf]
  by_cases hc : c.content = ""
  · cases ht : c.tool_calls with
    | none => exact ⟨st, by simp [hc, ht], hb⟩
    | some tcs => exact ⟨{ st with toolCalls := some tcs }, by simp [hc, ht], hb⟩
  · cases ht : c.tool_calls with
    | none =>
      refine ⟨{ st with accumulated := st.accumulated ++ c.content }, ?_, hb⟩
      simp [hc, ht, hb]
    | some tcs =>
      refine ⟨{ st with accumulated := st.accumulated ++ c.content,
                        toolCalls := some tcs }, ?_, hb⟩
      simp [hc, ht, hb]

theorem roundFold_buffering (env : StreamEnv) (fc : String) (used : List String)
    (rounds : Nat) (hab : env.abortFrom = none) :
    ∀ chunks k st, st.buffering = true → (∀ c ∈ chunks, c.isFinished = false) →
      (Agent.roundFold env fc used rounds k st chunks).1 = [] := by
  intro chunks
  induction chunks with
  | nil =>
    intro k st hb hall
    rfl
  | cons c rest ih =>
    intro k st hb hall
    have ha : abortActive env.abortFrom k = false := by simp [abortActive, hab]
    obtain ⟨st', hstep, hb'⟩ :=
      roundStep_buffering env fc used rounds k st c hb ha (hall c (List.mem_cons_self c rest))
    simp only [Agent.roundFold, hstep]
    simpa using ih (k + 1) st' hb' (fun c' hc' => hall c' (List.mem_cons_of_mem c hc'))

theorem roundStep_enter_buffering (env : StreamEnv) (fc : String) (used : List String)
    (rounds k : Nat) (st : RoundState) (c : ChatStreamChunk)
    (hb : st.buffering = false) (ha : abortActive env.abortFrom k = false)
    (hf : c.isFinished = false) (hcne : c.content ≠ "")
    (htag : containsCI (st.accumulated ++ c.content) "<tool_call>" = true) :
    ∃ evs st', Agent.roundStep env fc used rounds k st c = (evs, .inl st') ∧
      st'.buffering = true ∧
      ∀ e ∈ evs, ∃ t, csIndexOf (st.accumulated ++ c.content) "<tool_call>" = some t ∧
        strLen st.displayed < t ∧
        e = AgentEvent.content
              (strSlice (st.accumulated ++ c.content) (strLen st.displayed) t) := by
  unfold Agent.roundStep
  rw [ha, hf]
  cases hidx : csIndexOf (st.accumulated ++ c.content) "<tool_call>" with
  | none =>
    cases ht : c.tool_calls with
    | none =>
      refine ⟨[], { st with accumulated := st.accumulated ++ c.content, buffering := true },
        ?_, rfl, by intro e he; cases he⟩
      simp [hcne, hb, htag, hidx, ht]
    | some tcs =>
      refine ⟨[], { st with accumulated := st.accumulated ++ c.content, buffering := true,
                            toolCalls := some tcs },
        ?_, rfl, by intro e he; cases he⟩
      simp [hcne, hb, htag, hidx, ht]
  | some t =>
    by_cases hlt : strLen st.displayed < t
    · cases ht : c.tool_calls with
      | none =>
        refine ⟨[AgentEvent.content
            (strSlice (st.accumulated ++ c.content) (strLen st.displayed) t)],
          { st with accumulated := st.accumulated ++ c.content,
                    displayed := strTake (st.accumulated ++ c.content) t,
                    buffering := true },
          ?_, rfl, ?_⟩
        · simp [hcne, hb, htag, hidx, ht, hlt]
        · intro e he
          rw [List.mem_singleton] at he
          exact ⟨t, rfl, hlt, he⟩
      | some tcs =>
        refine ⟨[AgentEvent.content
            (strSlice (st.accumulated ++ c.content) (strLen st.displayed) t)],
          { st with accumulated := st.accumulated ++ c.content,
                    displayed := strTake (st.accumulated ++ c.content) t,
                    buffering := true, toolCalls := some tcs },
          ?_, rfl, ?_⟩
        · simp [hcne, hb, htag, hidx, ht, hlt]
        · intro e he
          rw [List.mem_singleton] at he
          exact ⟨t, rfl, hlt, he⟩
    · cases ht : c.tool_calls with
      | none =>
        refine ⟨[], { st with accumulated := st.accumulated ++ c.content, buffering := true },
          ?_, rfl, by intro e he; cases he⟩
        simp [hcne, hb, htag, hidx, ht, hlt]
      | some tcs =>
        refine ⟨[], { st with accumulated := st.accumulated ++ c.content, buffering := true,
                              toolCalls := some tcs },
          ?_, rfl, by intro e he; cases he⟩
        simp [hcne, hb, htag, hidx, ht, hlt]

/-- C5: once a tool-call marker is suspected in the accumulated text the
chunk loop stops emitting content: the step that first detects the marker
emits at most the text strictly before the (case-sensitive) tag start and
sets the buffering flag; from a buffering state, no event at all is emitted
until a finish chunk arrives; and a finish chunk that resolves the tag into
parsed calls emits nothing itself, handing the parsed calls to the tool
phase (with the remaining cleaned content case handled on the parse-failure
path of `roundStep`). -/
theorem executeStream_buffering :
    (∀ env fc used rounds chunks k st, env.abortFrom = none → st.buffering = true →
       (∀ c ∈ chunks, c.isFinished = false) →
       (Agent.roundFold env fc used rounds k st chunks).1 = []) ∧
    (∀ env fc used rounds k st c,
       st.buffering = false → abortActive env.abortFrom k = false →
       c.isFinished = false → c.content ≠ "" →
       containsCI (st.accumulated ++ c.content) "<tool_call>" = true →
       ∃ evs st', Agent.roundStep env fc used rounds k st c = (evs, .inl st') ∧
         st'.buffering = true ∧
         ∀ e ∈ evs, ∃ t, csIndexOf (st.accumulated ++ c.content) "<tool_call>" = some t ∧
           strLen st.displayed < t ∧
           e = AgentEvent.content
                 (strSlice (st.accumulated ++ c.content) (strLen st.displayed) t)) ∧
    (∀ env fc used rounds k st c calls,
       abortActive env.abortFrom k = false → st.buffering = true →
       c.content = "" → c.isFinished = true → c.tool_calls = none →
       c.finishReason = some .stop →
       hasToolCallTags st.accumulated = true →
       parseToolCallTags env.uuids st.accumulated = some calls →
       0 < calls.length →
       Agent.roundStep env fc used rounds k st c =
         ([], .inl { st with toolCalls := some calls,
                             accumulated := strTrim (removeToolCallSpans
                               (extractThinkingContent st.accumulated).cleanContent) })) := by
  refine ⟨?_, ?_, ?_⟩
  · intro env fc used rounds chunks k st hab hb hall
    exact roundFold_buffering env fc used rounds hab chunks k st hb hall
  · intro env fc used rounds k st c hb ha hf hcne htag
    exact roundStep_enter_buffering env fc used rounds k st c hb ha hf hcne htag
  · intro env fc used rounds k st c calls ha hb hc hfin ht hr htags hparse hlen
    unfold Agent.roundStep
    rw [ha, hfin]
    simp [hc, ht, hr, htags, hparse, hlen]

/-- Environment and states for the C5 witness. -/
def c5env : StreamEnv :=
  { streams := fun _ => [],
    toolResults := fun _ _ => [],
    uuids := fun n => toString n,
    abortFrom := none }

def c5stBuf : RoundState :=
  { accumulated := "a<tool_call>", displayed := "a", buffering := true }

def c5stPre : RoundState := { accumulated := "He", displayed := "He" }

def c5stFin : RoundState :=
  { accumulated := "<tool_call>\x7b\"name\":\"t\",\"arguments\":\"\x7b\x7d\"\x7d</tool_call>",
    displayed := "", buffering := true }

def c5finChunk : ChatStreamChunk :=
  { content := "", isFinished := true, finishReason := some .stop }

/-- Witness for C5 at concrete inputs. -/
theorem executeStream_buffering_witness :
    (Agent.roundFold c5env "" [] 0 1 c5stBuf
       [{ content := "x", isFinished := false }]).1 = [] ∧
    (∃ evs st', Agent.roundStep c5env "" [] 0 1 c5stPre
        { content := "llo <tool_call>", isFinished := false } = (evs, .inl st') ∧
      st'.buffering = true ∧
      ∀ e ∈ evs, ∃ t,
        csIndexOf (c5stPre.accumulated ++ "llo <tool_call>") "<tool_call>" = some t ∧
        strLen c5stPre.displayed < t ∧
        e = AgentEvent.content (strSlice (c5stPre.accumulated ++ "llo <tool_call>")
              (strLen c5stPre.displayed) t)) ∧
    Agent.roundStep c5env "" [] 0 1 c5stFin c5finChunk =
      ([], .inl { c5stFin with
                    toolCalls := some [{ id := "fallback-0",
                                         function := { name := "t", arguments := "\x7b\x7d" } }],
                    accumulated := strTrim (removeToolCallSpans
                      (extractThinkingContent c5stFin.accumulated).cleanContent) }) := by
  refine ⟨?_, ?_, ?_⟩
  · exact executeStream_buffering.1 c5env "" [] 0
      [{ content := "x", isFinished := false }] 1 c5stBuf rfl rfl
      (by intro c hc; simp at hc; rw [hc])
  · exact executeStream_buffering.2.1 c5env "" [] 0 1 c5stPre
      { content := "llo <tool_call>", isFinished := false } rfl rfl rfl (by decide) rfl
  · exact executeStream_buffering.2.2 c5env "" [] 0 1 c5stFin c5finChunk
      [{ id := "fallback-0", function := { name := "t", arguments := "\x7b\x7d" } }]
      rfl rfl rfl rfl rfl rfl rfl rfl (by decide)

/-! ## C2/C10: per-index accumulation of streamed tool-call fragments

Specification-side accessors: the key, id part, name part and argument part
of a raw fragment, and the in-order concatenation of the argument parts of
all fragments with a given key. -/

/-- The accumulator key of a fragment (`tc.index ?? 0`). -/
def fragKey (tc : Json) : Json := nullishKey (jsProp tc "index")

/-- `tc.function`. -/
def fragFn (tc : Json) : Option Json := jsProp tc "function"

/-- `tc.id || ''`. -/
def fragId (tc : Json) : String := jsOrEmpty (jsProp tc "id")

/-- `tc.function?.name || ''`. -/
def fragName (tc : Json) : String := jsOrEmpty (jsGetOpt (fragFn tc) "name")

/-- The argument text a fragment contributes (`tc.function?.arguments` when
truthy, else nothing). -/
def fragArg (tc : Json) : String := jsOrEmpty (jsGetOpt (fragFn tc) "arguments")

/-- Concatenation, in arrival order, of the argument texts of the fragments
with key `k`. -/
def joinArgs (k : Json) : List Json → String
  | [] => ""
  | tc :: rest => (if fragKey tc = k then fragArg tc else "") ++ joinArgs k rest

theorem strEmptyAppend (s : String) : "" ++ s = s := by
  cases s
  rfl

theorem accFind_accUpdate (acc : List (Json × AccEntry)) (kt k : Json)
    (f : AccEntry → AccEntry) :
    accFind (accUpdate acc kt f) k =
      if kt = k then (accFind acc k).map f else accFind acc k := by
  induction acc with
  | nil =>
    simp only [accUpdate, accFind]
    split <;> rfl
  | cons p rest ih =>
    obtain ⟨pk, pv⟩ := p
    by_cases h1 : pk = kt
    · subst h1
      by_cases h2 : pk = k
      · subst h2
        simp [accUpdate, accFind, ih]
      · simp [accUpdate, accFind, h2, ih]
    · by_cases h2 : pk = k
      · subst h2
        have hkt : ¬kt = pk := fun hh => h1 hh.symm
        simp [accUpdate, accFind, h1, hkt]
      · simp [accUpdate, accFind, h1, h2, ih]

theorem accFind_append (acc : List (Json × AccEntry)) (kt k : Json) (e : AccEntry) :
    accFind (acc ++ [(kt, e)]) k =
      match accFind acc k with
      | some e' => some e'
      | none => if kt = k then some e else none := by
  induction acc with
  | nil =>
    simp only [List.nil_append, accFind]
  | cons p rest ih =>
    obtain ⟨pk, pv⟩ := p
    by_cases h2 : pk = k
    · simp [accFind, h2]
    · simpa [accFind, h2] using ih

/-- The effect of one fragment on the accumulator, as a total function (the
source throws only on a `null` fragment, excluded by `applyFrag_eq`). -/
def applyFragT (acc : List (Json × AccEntry)) (tc : Json) : List (Json × AccEntry) :=
  match accFind acc (fragKey tc) with
  | some _ =>
    if jsTruthyOpt (jsGetOpt (fragFn tc) "arguments") then
      accUpdate acc (fragKey tc) (fun e =>
        { e with arguments := e.arguments ++ jsToStrOpt (jsGetOpt (fragFn tc) "arguments") })
    else acc
  | none => acc ++ [(fragKey tc, { id := fragId tc, name := fragName tc,
                                   arguments := fragArg tc })]

theorem applyFrag_eq (acc : List (Json × AccEntry)) (tc : Json) (h : tc ≠ Json.null) :
    applyFrag acc tc = some (applyFragT acc tc) := by
  cases tc with
  | null => exact absurd rfl h
  | bool b =>
    simp only [applyFrag, applyFragT, fragKey, fragFn, fragId, fragName, fragArg,
               jsProp, jsGet]
    cases accFind acc (nullishKey none) <;> rfl
  | num n =>
    simp only [applyFrag, applyFragT, fragKey, fragFn, fragId, fragName, fragArg,
               jsProp, jsGet]
    cases accFind acc (nullishKey none) <;> rfl
  | str s =>
    simp only [applyFrag, applyFragT, fragKey, fragFn, fragId, fragName, fragArg,
               jsProp, jsGet]
    cases accFind acc (nullishKey none) <;> rfl
  | arr xs =>
    simp only [applyFrag, applyFragT, fragKey, fragFn, fragId, fragName, fragArg,
               jsProp, jsGet]
    cases accFind acc (nullishKey none) <;> rfl
  | obj fs =>
    simp only [applyFrag, applyFragT, fragKey, fragFn, fragId, fragName, fragArg,
               jsProp, jsGet]
    cases accFind acc (nullishKey (List.lookup "index" fs)) <;> first | rfl | (rw [apply_ite some]; try rfl)

theorem applyFragT_accFind (acc : List (Json × AccEntry)) (tc : Json) (k : Json) :
    accFind (applyFragT acc tc) k =
      if fragKey tc = k then
        match accFind acc k with
        | some e => some { e with arguments := e.arguments ++ fragArg tc }
        | none => some { id := fragId tc, name := fragName tc, arguments := fragArg tc }
      else accFind acc k := by
  unfold applyFragT
  cases haf : accFind acc (fragKey tc) with
  | some e0 =>
    by_cases harg : jsTruthyOpt (jsGetOpt (fragFn tc) "arguments") = true
    · rw [if_pos harg, accFind_accUpdate]
      by_cases hk : fragKey tc = k
      · subst hk
        rw [if_pos rfl, if_pos rfl, haf]
        have hfa : fragArg tc = jsToStrOpt (jsGetOpt (fragFn tc) "arguments") := by
          unfold fragArg jsOrEmpty
          rw [harg]
          simp
        rw [hfa]
        rfl
      · rw [if_neg hk, if_neg hk]
    · rw [if_neg harg]
      by_cases hk : fragKey tc = k
      · subst hk
        rw [if_pos rfl, haf]
        have hfa : fragArg tc = "" := by
          unfold fragArg jsOrEmpty
          rw [Bool.not_eq_true] at harg
          rw [harg]
          rfl
        rw [hfa]
        cases e0 with
        | mk i n a => simp [String.append_empty]
      · rw [if_neg hk]
  | none =>
    rw [accFind_append]
    by_cases hk : fragKey tc = k
    · subst hk
      simp [haf]
    · rw [if_neg hk, if_neg hk]
      cases accFind acc k <;> rfl

/-- In-order characterisation of the whole fragment fold: the processing
flag stays `true`, and the entry for key `k` — when present — carries the id
and name of the first fragment with that key and the concatenation, in
arrival order, of all argument texts of the fragments with that key. -/
theorem applyFrags_spec (fs : List Json) :
    ∀ acc k, (∀ tc ∈ fs, tc ≠ Json.null) →
      (applyFrags acc fs).2 = true ∧
      accFind (applyFrags acc fs).1 k =
        (match accFind acc k with
         | some e => some { e with arguments := e.arguments ++ joinArgs k fs }
         | none =>
           match fs.find? (fun tc => fragKey tc = k) with
           | none => none
           | some f => some { id := fragId f, name := fragName f,
                              arguments := joinArgs k fs }) := by
  induction fs with
  | nil =>
    intro acc k _
    refine ⟨rfl, ?_⟩
    cases he : accFind acc k with
    | none => simp [applyFrags, he]
    | some e =>
      cases e with
      | mk i n a => simp [applyFrags, he, joinArgs, String.append_empty]
  | cons tc rest ih =>
    intro acc k hnn
    have htc : tc ≠ Json.null := hnn tc (List.mem_cons_self _ _)
    have hrest : ∀ t ∈ rest, t ≠ Json.null := fun t ht => hnn t (List.mem_cons_of_mem _ ht)
    simp only [applyFrags, applyFrag_eq acc tc htc]
    obtain ⟨hok, hfind⟩ := ih (applyFragT acc tc) k hrest
    refine ⟨hok, ?_⟩
    rw [hfind, applyFragT_accFind]
    by_cases hk : fragKey tc = k
    · rw [if_pos hk]
      cases hacc : accFind acc k with
      | some e =>
        cases e with
        | mk i n a => simp [joinArgs, hk, String.append_assoc]
      | none =>
        simp [joinArgs, hk, List.find?_cons_of_pos, String.append_assoc]
    · rw [if_neg hk]
      cases hacc : accFind acc k with
      | some e =>
        cases e with
        | mk i n a => simp [joinArgs, hk, strEmptyAppend]
      | none =>
        simp [joinArgs, hk, List.find?_cons_of_neg, strEmptyAppend]

/-! ### The C2 and C10 claims -/

/-- The three network reads of the C2 example: a fragment carrying
arguments text `{"a":1`, a fragment for the same index carrying `}`, and the
end marker. -/
def c2read1 : String :=
  "data: \x7b\"choices\":[\x7b\"delta\":\x7b\"tool_calls\":[\x7b\"index\":0," ++
  "\"id\":\"call_1\",\"function\":\x7b\"name\":\"lookup\"," ++
  "\"arguments\":\"\x7b\\\"a\\\":1\"\x7d\x7d]\x7d\x7d]\x7d\n"

def c2read2 : String :=
  "data: \x7b\"choices\":[\x7b\"delta\":\x7b\"tool_calls\":[\x7b\"index\":0," ++
  "\"function\":\x7b\"arguments\":\"\x7d\"\x7d\x7d]\x7d\x7d]\x7d\n"

def c2read3 : String := "data: [DONE]\n"

/-- A terminal frame (`finish_reason` present, empty delta). -/
def c2finishLine : String :=
  "\x7b\"choices\":[\x7b\"delta\":\x7b\x7d,\"finish_reason\":\"tool_calls\"\x7d]\x7d"

/-- C2: fragments sharing one index accumulate into a single entry whose
arguments text is the in-order concatenation of the argument texts of the
fragments with that index; both the `[DONE]` marker and a terminal frame
flush the accumulated entries into complete tool calls on a single finished
chunk; and in particular the fragment texts `{"a":1` and `}` yield final
arguments `{"a":1}` through the full wire pipeline. -/
theorem chatStream_tool_call_accumulation :
    (∀ fs k e, (∀ tc ∈ fs, tc ≠ Json.null) →
       accFind (applyFrags [] fs).1 k = some e → e.arguments = joinArgs k fs) ∧
    (∀ acc, 0 < acc.length →
       processDataLine acc "[DONE]" =
         .finish [{ content := "", isFinished := true, finishReason := some .tool_calls,
                    tool_calls := some (flushToolCalls acc) }]) ∧
    (∀ acc, 0 < acc.length →
       processDataLine acc c2finishLine =
         .finish [{ content := "", isFinished := true, finishReason := some .tool_calls,
                    tool_calls := some (flushToolCalls acc) }]) ∧
    chatStreamModel none [.chunk c2read1, .chunk c2read2, .chunk c2read3] =
      ([{ content := "", isFinished := true, finishReason := some .tool_calls,
          tool_calls := some [{ id := "call_1",
                                function := { name := "lookup",
                                              arguments := "\x7b\"a\":1\x7d" } }] }],
       none) := by
  refine ⟨?_, ?_, ?_, rfl⟩
  · intro fs k e hnn hfind
    obtain ⟨-, hspec⟩ := applyFrags_spec fs [] k hnn
    rw [hfind] at hspec
    simp only [accFind] at hspec
    cases hf : fs.find? (fun tc => fragKey tc = k) with
    | none =>
      rw [hf] at hspec
      exact Option.noConfusion hspec
    | some f =>
      rw [hf] at hspec
      rw [Option.some.injEq] at hspec
      rw [hspec]
  · intro acc h
    unfold processDataLine
    rw [if_pos rfl, if_pos h]
  · intro acc h
    cases acc with
    | nil => simp at h
    | cons a as =>
      unfold processDataLine
      rw [if_neg (show ¬(c2finishLine = "[DONE]") by decide)]
      rw [show jsonParse c2finishLine =
            some (.obj [("choices", .arr [.obj [("delta", .obj []),
                  ("finish_reason", .str "tool_calls")]])]) from rfl]
      simp [jsGet, jsGetOpt, jsIndexGet, applyFrags, extractUsage, mapFinishReason,
            jsTruthy, List.lookup]

/-- Non-null fragments for the C10 witness and the C10 concrete part: the
second fragment carries a different id and name for the same index; the
third carries a fresh index with id, name and arguments all absent. -/
def c10frag1 : Json :=
  .obj [("index", .num 1), ("id", .str "A"),
        ("function", .obj [("name", .str "n1"), ("arguments", .str "x")])]

def c10frag2 : Json :=
  .obj [("index", .num 1), ("id", .str "B"),
        ("function", .obj [("name", .str "n2"), ("arguments", .str "y")])]

def c10frag3 : Json := .obj [("index", .num 2)]

/-- C10: the id and name of an accumulated call come only from the first
fragment seen for its index (empty string when that fragment omits them);
id and name fields on later fragments for the same index are ignored and
only their argument text is appended. -/
theorem chatStream_first_fragment_wins :
    (∀ fs k f e, (∀ tc ∈ fs, tc ≠ Json.null) →
       fs.find? (fun tc => fragKey tc = k) = some f →
       accFind (applyFrags [] fs).1 k = some e →
       e.id = fragId f ∧ e.name = fragName f) ∧
    (applyFrags [] [c10frag1, c10frag2, c10frag3]).1 =
      [(Json.num 1, { id := "A", name := "n1", arguments := "xy" }),
       (Json.num 2, { id := "", name := "", arguments := "" })] := by
  refine ⟨?_, rfl⟩
  intro fs k f e hnn hf hfind
  obtain ⟨-, hspec⟩ := applyFrags_spec fs [] k hnn
  rw [hfind, hf] at hspec
  simp only [accFind] at hspec
  rw [Option.some.injEq] at hspec
  rw [hspec]
  exact ⟨rfl, rfl⟩

/-- Witness for C2 at concrete inputs. -/
theorem chatStream_tool_call_accumulation_witness :
    ({ id := "A", name := "n1", arguments := "xy" } : AccEntry).arguments =
      joinArgs (Json.num 1) [c10frag1, c10frag2] ∧
    processDataLine [(Json.num 0, { id := "i", name := "n", arguments := "a" })] "[DONE]" =
      .finish [{ content := "", isFinished := true, finishReason := some .tool_calls,
                 tool_calls := some (flushToolCalls
                   [(Json.num 0, { id := "i", name := "n", arguments := "a" })]) }] ∧
    processDataLine [(Json.num 0, { id := "i", name := "n", arguments := "a" })] c2finishLine =
      .finish [{ content := "", isFinished := true, finishReason := some .tool_calls,
                 tool_calls := some (flushToolCalls
                   [(Json.num 0, { id := "i", name := "n", arguments := "a" })]) }] :=
  ⟨chatStream_tool_call_accumulation.1 [c10frag1, c10frag2] (Json.num 1)
     { id := "A", name := "n1", arguments := "xy" }
     (by intro tc htc; fin_cases htc <;> decide) rfl,
   chatStream_tool_call_accumulation.2.1 _ (by decide),
   chatStream_tool_call_accumulation.2.2.1 _ (by decide)⟩

/-- Witness for C10 at concrete inputs. -/
theorem chatStream_first_fragment_wins_witness :
    ({ id := "A", name := "n1", arguments := "xy" } : AccEntry).id = fragId c10frag1 ∧
    ({ id := "A", name := "n1", arguments := "xy" } : AccEntry).name = fragName c10frag1 :=
  chatStream_first_fragment_wins.1 [c10frag1, c10frag2] (Json.num 1) c10frag1
    { id := "A", name := "n1", arguments := "xy" }
    (by intro tc htc; fin_cases htc <;> decide) rfl rfl

end ChatLab


